import Mathlib

set_option maxRecDepth 8000

/-!
Verification development for the voice-inbox-daemon repository.

The Go sources are shallowly embedded: Go strings are modelled as `List Char`
(the ids and paths manipulated by the program are ASCII, where Go byte-wise
operations and char-wise operations agree), machine integers as `Int`
(the backoff loop is guarded so it never overflows 64-bit range for in-range
bounds), `time.Time` as a record carrying the unix second together with the
formatted date strings the program extracts from it, and RFC3339 UTC
timestamp columns as their unix second (RFC3339 UTC strings compare
lexicographically exactly as the instants they denote).  Fallible calls
return `Except`/`Option`; external collaborators (Discord, the document
store, ffmpeg, whisper) are oracles supplied as explicit arguments, and the
functions additionally return the list of external calls made and store
writes issued, so that claims about "no download" or "no append" are
statements about those traces.
-/

namespace VoiceInbox

/-- Go strings, modelled as lists of characters. -/
abbrev Str := List Char

/-- Whitespace test used by Go `strings.TrimSpace` (ASCII range). -/
def goIsSpace (c : Char) : Bool :=
  c = ' ' ∨ c = '\t' ∨ c = '\n' ∨ c = '\x0b' ∨ c = '\x0c' ∨ c = '\r'

/-- Go `strings.TrimSpace`. -/
def goTrimSpace (s : Str) : Str :=
  ((s.dropWhile goIsSpace).reverse.dropWhile goIsSpace).reverse

/-- Go `strings.ToLower` (ASCII case folding, which is all the content-type
check needs). -/
def goToLower (s : Str) : Str := s.map Char.toLower

/-- Go `strings.HasPrefix s pre`: does `s` start with `pre`. -/
def strStartsWith : Str → Str → Bool
  | _, [] => true
  | [], _ :: _ => false
  | a :: as, b :: bs => a = b && strStartsWith as bs

/-- Go `strings.Contains s sub`. -/
def strContainsSub (s sub : Str) : Bool :=
  (List.range (s.length + 1)).any fun i => strStartsWith (s.drop i) sub

/-- Go `strings.Index s sub`: index of the first occurrence, `none` if absent. -/
def strIndexOf (s sub : Str) : Option Nat :=
  (List.range (s.length + 1)).find? fun i => strStartsWith (s.drop i) sub

/-- Go byte-wise `<` on strings (lexicographic; the program compares ASCII
ids, where byte order and char order coincide). -/
def strLtb : Str → Str → Bool
  | [], [] => false
  | [], _ :: _ => true
  | _ :: _, [] => false
  | a :: as, b :: bs => if a < b then true else if b < a then false else strLtb as bs

/-- Insertion into a list sorted by the boolean relation `le`. -/
def insertBy (le : α → α → Bool) (x : α) : List α → List α
  | [] => [x]
  | y :: ys => if le x y then x :: y :: ys else y :: insertBy le x ys

/-- Deterministic sort by the boolean relation `le`; models `sort.Slice`
(resp. the SQL `ORDER BY`), whose output is characterised by being a
permutation of the input that is pairwise non-decreasing. -/
def sortBy (le : α → α → Bool) : List α → List α
  | [] => []
  | x :: xs => insertBy le x (sortBy le xs)

section Paths

/-- Splitting a path on `/`, keeping empty segments. -/
def splitSlashAux : Str → Str → List Str
  | [], acc => [acc.reverse]
  | c :: rest, acc =>
    if c = '/' then acc.reverse :: splitSlashAux rest []
    else splitSlashAux rest (c :: acc)

/-- Split a path string on the separator. -/
def splitSlash (s : Str) : List Str := splitSlashAux s []

/-- Join path components with `/`. -/
def joinSlash : List Str → Str
  | [] => []
  | [p] => p
  | p :: q :: rest => p ++ "/".data ++ joinSlash (q :: rest)

/-- Go `path.IsAbs` / unix `filepath.IsAbs`. -/
def isAbsPath (s : Str) : Bool := strStartsWith s "/".data

/-- Component processing of Go `path.Clean`: drop empty and `.` components,
resolve `..` against the output stack (a `..` at the root of an absolute
path vanishes, leading `..` of a relative path are kept). -/
def cleanPartsAux (abs : Bool) : List Str → List Str → List Str
  | [], out => out.reverse
  | p :: rest, out =>
    if p = [] ∨ p = ".".data then cleanPartsAux abs rest out
    else if p = "..".data then
      match out with
      | q :: out2 =>
        if q = "..".data then cleanPartsAux abs rest (p :: q :: out2)
        else cleanPartsAux abs rest out2
      | [] => if abs then cleanPartsAux abs rest [] else cleanPartsAux abs rest [p]
    else cleanPartsAux abs rest (p :: out)

/-- Go `path.Clean` (= unix `filepath.Clean`). -/
def goClean (s : Str) : Str :=
  if s = [] then ".".data
  else
    let abs := isAbsPath s
    let out := cleanPartsAux abs (splitSlash s) []
    if abs then '/' :: joinSlash out
    else if out = [] then ".".data
    else joinSlash out

/-- Components of an already-cleaned path, for `filepath.Rel`. -/
def pathParts (s : Str) : List Str :=
  if s = ".".data then [] else (splitSlash s).filter (· ≠ ([] : Str))

/-- Length of the common component prefix of two paths. -/
def commonLen : List Str → List Str → Nat
  | a :: as, b :: bs => if a = b then commonLen as bs + 1 else 0
  | _, _ => 0

/-- Render the result of `filepath.Rel`: `n` leading `..` components followed
by the remaining target components. -/
def relJoin (n : Nat) (tRem : List Str) : Str :=
  let parts := List.replicate n "..".data ++ tRem
  if parts = [] then ".".data else joinSlash parts

/-- Go unix `filepath.Rel`: both paths are cleaned; mixing an absolute path
with a relative one is an error, as is a first divergent base component of
`..`; otherwise the result climbs out of the remaining base components and
descends into the remaining target components. -/
def goRel (base targ : Str) : Except Str Str :=
  let b := goClean base
  let t := goClean targ
  if b = t then .ok ".".data
  else if isAbsPath b ≠ isAbsPath t then .error "Rel: cannot make relative".data
  else
    let bp := pathParts b
    let tp := pathParts t
    let k := commonLen bp tp
    let bRem := bp.drop k
    if bRem.head? = some "..".data then .error "Rel: cannot make relative".data
    else .ok (relJoin bRem.length (tp.drop k))

/-- Go `path.Join` of two elements (empty elements dropped, result cleaned). -/
def goPathJoin (a b : Str) : Str :=
  if a = [] then (if b = [] then [] else goClean b)
  else if b = [] then goClean a
  else goClean (a ++ "/".data ++ b)

/-- Path components that survive `path.Clean` untouched: non-empty, not a
dot component, and free of separators. -/
def Ordinary (p : Str) : Prop :=
  p ≠ [] ∧ p ≠ ".".data ∧ p ≠ "..".data ∧ '/' ∉ p

instance (p : Str) : Decidable (Ordinary p) := by
  unfold Ordinary
  infer_instance

/-- Go `filepath.Join` of a list of elements. -/
def goPathJoinList (parts : List Str) : Str :=
  let ne := parts.filter (· ≠ ([] : Str))
  if ne = [] then [] else goClean (joinSlash ne)

end Paths

/-- Model of `time.Time`: the unix second plus the formatted views the
program extracts (`2006/01/02`, `2006-01-02`, `2006_01_02`, `15:04`,
RFC3339). -/
structure GoTime where
  unix : Int
  dateSlash : Str
  dateDash : Str
  dateUnderscore : Str
  hm : Str
  rfc3339 : Str
deriving DecidableEq

namespace State

/-- Closed status set written by the store operations
(`internal/state/store.go`). -/
inductive Status
  | pending
  | done
  | failed
  | reactionPending
deriving DecidableEq

/-- One row of the `messages` table, at the granularity the Go code sees it:
`TEXT` columns that scan to plain strings are `Str` with `[]` standing for
SQL `NULL` (exactly the round trip `nullable`/`scan` implements), and
`next_retry_at` — scanned into `*time.Time` — is an `Option` of its unix
second. -/
structure MsgRec where
  messageID : Str
  channelID : Str
  authorID : Str
  attachmentID : Str
  attachmentURL : Str
  attachmentFilename : Str
  contentType : Str
  audioPath : Str
  transcriptPath : Str
  status : Status
  attempts : Int
  nextRetryAt : Option Int
  lastError : Str
  journalPath : Str
  discordJumpURL : Str
  createdAt : Int
  updatedAt : Int
deriving DecidableEq

/-- Go `trimError`: trim whitespace, truncate to 1000. -/
def trimError (e : Str) : Str :=
  let e2 := goTrimSpace e
  if e2.length > 1000 then e2.take 1000 else e2

/-- The `messages` table. -/
abbrev Store := List MsgRec

/-- Store mutations, one constructor per SQL-writing method of `state.Store`
(each carries the wall-clock second the method would stamp into
`updated_at`). -/
inductive StoreOp
  | upsertPending (rec : MsgRec) (now : Int)
  | markDone (messageID journalPath audioPath transcriptPath jumpURL : Str) (now : Int)
  | markReactionPending (messageID errText : Str) (attempts : Int) (nextRetryAt : Int)
      (journalPath audioPath transcriptPath jumpURL : Str) (now : Int)
  | markFailed (messageID errText : Str) (attempts : Int) (nextRetryAt : Option Int) (now : Int)
  | clearAudioPath (messageID : Str) (now : Int)
  | clearTranscriptPath (messageID : Str) (now : Int)
deriving DecidableEq

/-- Effect of one store operation on the table; `UPDATE ... WHERE
message_id = ?` touches the matching rows, the upsert inserts a fresh
`pending` row on a new key and only refreshes attachment metadata on
conflict. -/
def applyOp (s : Store) : StoreOp → Store
  | .upsertPending rec now =>
    if s.any (fun r => r.messageID = rec.messageID) then
      s.map fun r =>
        if r.messageID = rec.messageID then
          { r with
            channelID := rec.channelID
            authorID := rec.authorID
            attachmentID := rec.attachmentID
            attachmentURL := rec.attachmentURL
            attachmentFilename := rec.attachmentFilename
            contentType := rec.contentType
            discordJumpURL := rec.discordJumpURL
            updatedAt := now }
        else r
    else
      s ++ [{ messageID := rec.messageID
              channelID := rec.channelID
              authorID := rec.authorID
              attachmentID := rec.attachmentID
              attachmentURL := rec.attachmentURL
              attachmentFilename := rec.attachmentFilename
              contentType := rec.contentType
              audioPath := []
              transcriptPath := []
              status := .pending
              attempts := 0
              nextRetryAt := none
              lastError := []
              journalPath := []
              discordJumpURL := rec.discordJumpURL
              createdAt := now
              updatedAt := now }]
  | .markDone id journalPath audioPath transcriptPath jumpURL now =>
    s.map fun r =>
      if r.messageID = id then
        { r with
          status := .done
          journalPath := journalPath
          audioPath := audioPath
          transcriptPath := transcriptPath
          discordJumpURL := jumpURL
          lastError := []
          nextRetryAt := none
          updatedAt := now }
      else r
  | .markReactionPending id errText attempts next journalPath audioPath transcriptPath jumpURL now =>
    s.map fun r =>
      if r.messageID = id then
        { r with
          status := .reactionPending
          attempts := attempts
          journalPath := journalPath
          audioPath := audioPath
          transcriptPath := transcriptPath
          discordJumpURL := jumpURL
          lastError := trimError errText
          nextRetryAt := some next
          updatedAt := now }
      else r
  | .markFailed id errText attempts next now =>
    s.map fun r =>
      if r.messageID = id then
        { r with
          status := .failed
          attempts := attempts
          lastError := trimError errText
          nextRetryAt := next
          updatedAt := now }
      else r
  | .clearAudioPath id now =>
    s.map fun r => if r.messageID = id then { r with audioPath := [], updatedAt := now } else r
  | .clearTranscriptPath id now =>
    s.map fun r => if r.messageID = id then { r with transcriptPath := [], updatedAt := now } else r

/-- Run a sequence of store operations from the empty table. -/
def runOps (ops : List StoreOp) : Store := ops.foldl applyOp []

/-- WHERE clause of `ListRetryCandidates`: due `failed` rows need a non-null
`next_retry_at` that has passed, due `reaction_pending` rows are those with a
null or passed `next_retry_at`. -/
def retryDue (now : Int) (r : MsgRec) : Bool :=
  (r.status = Status.failed ∨ r.status = Status.reactionPending)
    && ((r.status = Status.reactionPending && r.nextRetryAt.elim true (fun x => x ≤ now))
      || (r.status = Status.failed && r.nextRetryAt.elim false (fun x => x ≤ now)))

/-- ORDER BY updated_at ASC comparison. -/
def updatedLeB (a b : MsgRec) : Bool := a.updatedAt ≤ b.updatedAt

/-- `state.Store.ListRetryCandidates`: WHERE, ORDER BY updated_at ASC,
LIMIT (a non-positive limit argument is replaced by 100). -/
def ListRetryCandidates (now limit : Int) (rows : Store) : List MsgRec :=
  let lim := if limit ≤ 0 then 100 else limit
  (sortBy updatedLeB (rows.filter (retryDue now))).take lim.toNat

/-- `state.Store.ListDoneWithAudioBefore`. -/
def ListDoneWithAudioBefore (cutoff limit : Int) (rows : Store) : List MsgRec :=
  let lim := if limit ≤ 0 then 500 else limit
  (sortBy updatedLeB (rows.filter fun r =>
    r.status = Status.done && r.audioPath ≠ ([] : Str) && r.updatedAt < cutoff)).take lim.toNat

/-- `state.Store.ListDoneWithTranscriptBefore`. -/
def ListDoneWithTranscriptBefore (cutoff limit : Int) (rows : Store) : List MsgRec :=
  let lim := if limit ≤ 0 then 500 else limit
  (sortBy updatedLeB (rows.filter fun r =>
    r.status = Status.done && r.transcriptPath ≠ ([] : Str) && r.updatedAt < cutoff)).take lim.toNat

end State

namespace Discord

/-- `discord.Attachment`. -/
structure Attachment where
  ID : Str
  URL : Str
  Filename : Str
  ContentType : Str
deriving DecidableEq

/-- `discord.User`. -/
structure User where
  ID : Str
  Username : Str
deriving DecidableEq

/-- `discord.Message` (the fields the pipeline reads). -/
structure Message where
  ID : Str
  ChannelID : Str
  GuildID : Str
  Author : User
  Content : Str
  Attachments : List Attachment
deriving DecidableEq

/-- `discord.IsAudioContentType`: trim, lower-case, then test the
`audio/` prefix. -/
def IsAudioContentType (ct : Str) : Bool :=
  strStartsWith (goToLower (goTrimSpace ct)) "audio/".data

end Discord

namespace Journal

/-- `journal.DiscordJumpURL`. -/
def DiscordJumpURL (guildID channelID messageID : Str) : Str :=
  "https://discord.com/channels/".data ++ guildID ++ "/".data ++ channelID
    ++ "/".data ++ messageID

/-- `journal.FilePath`: the journal directory trimmed of slashes joined to
the dated file name. -/
def FilePath (journalDir : Str) (t : GoTime) : Str :=
  let trimmed := ((journalDir.dropWhile (· = '/')).reverse.dropWhile (· = '/')).reverse
  goPathJoin trimmed (t.dateDash ++ ".md".data)

/-- `journal.NewJournalContent`: the front-matter skeleton of a fresh dated
journal document (contains no `discord_message_id` marker). -/
def NewJournalContent (t : GoTime) : Str :=
  "---\ntitle: \"".data ++ t.dateUnderscore
    ++ "\"\ntype: journal\ndate: ".data ++ t.dateDash
    ++ "\ncreated: ".data ++ t.rfc3339
    ++ "\ntags: [journal]\nsource: voice-inbox-daemon\n---\n# ".data
    ++ t.dateUnderscore ++ "\n".data

/-- `journal.EntryInput`. -/
structure EntryInput where
  now : GoTime
  transcript : Str
  channelID : Str
  messageID : Str
  authorID : Str
  jumpURL : Str
  audioFile : Str
  whisperModel : Str
  processedAt : GoTime
deriving DecidableEq

/-- `journal.BuildEntry`: the appended journal block, including the
`discord_message_id: "<id>"` marker line inside the yaml fence. -/
def BuildEntry (i : EntryInput) : Str :=
  let transcript :=
    let tr := goTrimSpace i.transcript
    if tr = [] then "(transcript is empty)".data else tr
  "\n## ログ - ".data ++ i.now.hm
    ++ "\n### 🎤 Voice Inbox\n\n".data ++ transcript
    ++ "\n\n```yaml\nvoice_inbox:\n  discord_channel_id: \"".data ++ i.channelID
    ++ "\"\n  discord_message_id: \"".data ++ i.messageID
    ++ "\"\n  discord_author_id: \"".data ++ i.authorID
    ++ "\"\n  discord_jump_url: \"".data ++ i.jumpURL
    ++ "\"\n  audio_file: \"".data ++ i.audioFile
    ++ "\"\n  whisper_model: \"".data ++ i.whisperModel
    ++ "\"\n  processed_at: \"".data ++ i.processedAt.rfc3339
    ++ "\"\n```\n".data

end Journal

namespace Pipeline

open State Discord Journal

/-- `pipeline.snowflakeCompare`: shorter id is smaller; equal lengths compare
lexicographically. -/
def snowflakeCompare (a b : Str) : Int :=
  if a.length ≠ b.length then (if a.length < b.length then -1 else 1)
  else if strLtb a b then -1
  else if strLtb b a then 1
  else 0

/-- CandidateKindAudio constant. -/
def CandidateKindAudio : Str := "audio".data

/-- CandidateKindText constant. -/
def CandidateKindText : Str := "text".data

/-- `pipeline.Candidate`. -/
structure Candidate where
  Message : Discord.Message
  Attachment : Discord.Attachment
  Kind : Str
  JumpURL : Str
deriving DecidableEq

/-- `pipeline.firstAudioAttachment`: the first attachment whose content type
is an audio type. -/
def firstAudioAttachment (attachments : List Attachment) : Option Attachment :=
  attachments.find? fun a => IsAudioContentType a.ContentType

/-- Jump link resolved inside the filter loop when the guild id is known. -/
def jumpOfMessage (msg : Message) : Str :=
  if msg.GuildID ≠ ([] : Str) then DiscordJumpURL msg.GuildID msg.ChannelID msg.ID else []

/-- The synthetic pseudo-attachment built for a text-only message. -/
def pseudoAttachment (msg : Message) : Attachment :=
  ⟨"text-".data ++ msg.ID, "about:text".data, "message.txt".data, "text/plain".data⟩

/-- Loop body of `FilterMessages`: drop disallowed authors, pick the first
audio attachment (kind audio) else non-blank text (kind text with the
synthetic pseudo-attachment) else drop; resolve the jump link when the guild
id is known. -/
def classifyMessage (allowedAuthorIDs : List Str) (msg : Message) : Option Candidate :=
  if ¬ allowedAuthorIDs.contains msg.Author.ID then none
  else
    match firstAudioAttachment msg.Attachments with
    | some a => some ⟨msg, a, CandidateKindAudio, jumpOfMessage msg⟩
    | none =>
      if goTrimSpace msg.Content ≠ ([] : Str) then
        some ⟨msg, pseudoAttachment msg, CandidateKindText, jumpOfMessage msg⟩
      else none

/-- Non-decreasing message order derived from `snowflakeCompare`, as
established by the `sort.Slice` call in `FilterMessages`. -/
def msgLeB (a b : Message) : Bool := snowflakeCompare a.ID b.ID ≤ 0

/-- `pipeline.FilterMessages`: sort by id, then classify each message in
order. -/
def FilterMessages (messages : List Message) (allowedAuthorIDs : List Str) : List Candidate :=
  (sortBy msgLeB messages).filterMap (classifyMessage allowedAuthorIDs)

/-- Doubling loop of `pipeline.NextRetryAt`, with fuel `attempts - 1`: stop
at `max` as soon as the delay reaches `max/2`, else double. -/
def retryLoopGo (maxSeconds : Int) : Nat → Int → Int
  | 0, delay => delay
  | n + 1, delay =>
    if delay ≥ maxSeconds / 2 then maxSeconds else retryLoopGo maxSeconds n (delay * 2)

/-- `pipeline.NextRetryAt` at unix-second granularity: normalise degenerate
arguments, run the doubling loop, clamp to the maximum, add to `now`.  This
abstraction treats the seconds-to-`Duration` conversion as exact, which
holds whenever the delay is at most 9223372036 seconds; `NextRetryAtNs`
below models the int64 wrap of that conversion exactly. -/
def NextRetryAt (now attempts baseSeconds maxSeconds : Int) : Int :=
  let a := if attempts ≤ 0 then 1 else attempts
  let b := if baseSeconds ≤ 0 then 1 else baseSeconds
  let m := if maxSeconds ≤ 0 then b else maxSeconds
  let d := retryLoopGo m (a - 1).toNat b
  let d2 := if d > m then m else d
  now + d2

/-- The clamped delay in seconds computed by `pipeline.NextRetryAt` before
the `time.Duration` conversion: normalise degenerate arguments, run the
doubling loop, clamp to the maximum. -/
def retryDelaySeconds (attempts baseSeconds maxSeconds : Int) : Int :=
  let a := if attempts ≤ 0 then 1 else attempts
  let b := if baseSeconds ≤ 0 then 1 else baseSeconds
  let m := if maxSeconds ≤ 0 then b else maxSeconds
  let d := retryLoopGo m (a - 1).toNat b
  if d > m then m else d

/-- Wrap of Go's signed 64-bit integer arithmetic (the constants are 2^63
and 2^64). -/
def wrap64 (x : Int) : Int :=
  (x + 9223372036854775808) % 18446744073709551616 - 9223372036854775808

/-- `time.Duration(delay) * time.Second`: the delay in seconds times 10^9
nanoseconds as an int64 multiplication, wrapping on overflow. -/
def durationOfSeconds (delay : Int) : Int := wrap64 (delay * 1000000000)

/-- `pipeline.NextRetryAt` at nanosecond granularity, including the int64
wrap of the seconds-to-`Duration` conversion performed by
`now.Add(time.Duration(delay) * time.Second)`; `nowNs` is `now` in unix
nanoseconds. -/
def NextRetryAtNs (nowNs attempts baseSeconds maxSeconds : Int) : Int :=
  nowNs + durationOfSeconds (retryDelaySeconds attempts baseSeconds maxSeconds)

/-- The configuration fields the runner reads (`config.Config`). -/
structure Config where
  maxRetryAttempts : Int
  retryBaseSeconds : Int
  retryMaxSeconds : Int
  discordFetchLimit : Int
  audioStoreDir : Str
  vaultJournalDir : Str
  whisperModel : Str
  allowedAuthorIDs : List Str
deriving DecidableEq

/-- `transcribe.Result`: extracted text and artifact paths. -/
structure WhisperOut where
  text : Str
  transcriptJSON : Str
  wavPath : Str
deriving DecidableEq

/-- Oracle for the external calls one candidate makes, in program order:
each field is the response the collaborator would give. -/
structure ProcEnv where
  downloadRes : Except Str Unit
  normalizeRes : Except Str Unit
  whisperRes : Except Str WhisperOut
  existsRes : Except Str Bool
  createRes : Except Str Unit
  readRes : Except Str Str
  appendRes : Except Str Unit
  reactionRes : Except Str Unit

/-- External calls a run can make, recorded as a trace. -/
inductive ExtCall
  | download (url destPath : Str)
  | normalize (inputPath outputPath : Str)
  | transcribe (wavPath : Str)
  | fileExists (path : Str)
  | createFile (path content : Str)
  | readFile (path : Str)
  | appendFile (path entry : Str)
  | addReaction (channelID messageID : Str)
deriving DecidableEq

/-- Message-row store writes a run can issue, mirroring `StoreOp` but
without the wall-clock stamp (the runner issues them at "now"). -/
abbrev StoreWrite := State.StoreOp

/-- Result of driving one candidate through `processCandidate`. -/
structure ProcOut where
  succeeded : Bool
  requeued : Bool
  failed : Bool
  calls : List ExtCall
  writes : List StoreWrite
deriving DecidableEq

/-- `Runner.scheduleFailure`: attempts+1; at or past the retry budget mark
failed with no next retry, otherwise mark failed with the backoff schedule.
Returns (requeued, store write). -/
def scheduleFailure (cfg : Config) (now : Int) (messageID : Str) (previousAttempts : Int)
    (errText : Str) : Bool × StoreWrite :=
  let attempts := previousAttempts + 1
  if attempts ≥ cfg.maxRetryAttempts then
    (false, .markFailed messageID errText attempts none now)
  else
    (true, .markFailed messageID errText attempts
      (some (NextRetryAt now attempts cfg.retryBaseSeconds cfg.retryMaxSeconds)) now)

/-- The idempotent-append marker `discord_message_id: "<id>"` scanned by
`Runner.journalContainsMessage`. -/
def markerFor (messageID : Str) : Str :=
  "discord_message_id: \"".data ++ messageID ++ "\"".data

/-- `Runner.journalContainsMessage` applied to already-read content. -/
def journalContainsMessage (content messageID : Str) : Bool :=
  strContainsSub content (markerFor messageID)

/-- `Runner.relativeOrSelf`. -/
def relativeOrSelf (targetPath baseDir : Str) : Str :=
  match goRel baseDir targetPath with
  | .error _ => targetPath
  | .ok rel => if strStartsWith rel "..".data then targetPath else rel

/-- Jump URL resolution at the top of `processCandidate`. -/
def jumpURLOf (c : Candidate) : Str :=
  if c.JumpURL = ([] : Str) ∧ c.Message.GuildID ≠ ([] : Str) then
    DiscordJumpURL c.Message.GuildID c.Message.ChannelID c.Message.ID
  else c.JumpURL

/-- The id-prefixed file stem of a candidate. -/
def prefixOf (c : Candidate) : Str := c.Message.ID ++ "_".data ++ c.Attachment.ID

/-- Date-partitioned path of the downloaded original attachment. -/
def origPathOf (cfg : Config) (t : GoTime) (c : Candidate) : Str :=
  goPathJoinList [cfg.audioStoreDir, t.dateSlash, prefixOf c ++ ".orig".data]

/-- Date-partitioned path of the normalized wav. -/
def wavPathOf (cfg : Config) (t : GoTime) (c : Candidate) : Str :=
  goPathJoinList [cfg.audioStoreDir, t.dateSlash, prefixOf c ++ ".wav".data]

/-- `Runner.processCandidate`: download → normalize → transcribe → ensure
journal exists → guarded append → acknowledge, returning
(succeeded, requeued, failed) plus the traces.  Failures before the
acknowledgment route through `scheduleFailure`; an acknowledgment failure
marks `reaction_pending` keeping the produced paths; full success marks
done. -/
def processCandidate (cfg : Config) (t : GoTime) (env : ProcEnv) (c : Candidate)
    (previousAttempts : Int) : ProcOut :=
  let now := t.unix
  let jumpURL := jumpURLOf c
  let origPath := origPathOf cfg t c
  let wavPath := wavPathOf cfg t c
  match env.downloadRes with
  | .error e =>
    let (rq, w) := scheduleFailure cfg now c.Message.ID previousAttempts e
    ⟨false, rq, true, [.download c.Attachment.URL origPath], [w]⟩
  | .ok _ =>
  let calls1 := [ExtCall.download c.Attachment.URL origPath, ExtCall.normalize origPath wavPath]
  match env.normalizeRes with
  | .error e =>
    let (rq, w) := scheduleFailure cfg now c.Message.ID previousAttempts e
    ⟨false, rq, true, calls1, [w]⟩
  | .ok _ =>
  let calls2 := calls1 ++ [ExtCall.transcribe wavPath]
  match env.whisperRes with
  | .error e =>
    let (rq, w) := scheduleFailure cfg now c.Message.ID previousAttempts e
    ⟨false, rq, true, calls2, [w]⟩
  | .ok txRes =>
  let journalPath := FilePath cfg.vaultJournalDir t
  let calls3 := calls2 ++ [ExtCall.fileExists journalPath]
  match env.existsRes with
  | .error e =>
    let (rq, w) := scheduleFailure cfg now c.Message.ID previousAttempts e
    ⟨false, rq, true, calls3, [w]⟩
  | .ok doesExist =>
  let created : List ExtCall :=
    if doesExist then [] else [ExtCall.createFile journalPath (NewJournalContent t)]
  let createOut : Except Str Unit := if doesExist then .ok () else env.createRes
  match createOut with
  | .error e =>
    let (rq, w) := scheduleFailure cfg now c.Message.ID previousAttempts e
    ⟨false, rq, true, calls3 ++ created, [w]⟩
  | .ok _ =>
  let entry := BuildEntry
    { now := t
      transcript := txRes.text
      channelID := c.Message.ChannelID
      messageID := c.Message.ID
      authorID := c.Message.Author.ID
      jumpURL := jumpURL
      audioFile := relativeOrSelf origPath cfg.audioStoreDir
      whisperModel := cfg.whisperModel
      processedAt := t }
  let calls4 := calls3 ++ created ++ [ExtCall.readFile journalPath]
  match env.readRes with
  | .error e =>
    let (rq, w) := scheduleFailure cfg now c.Message.ID previousAttempts e
    ⟨false, rq, true, calls4, [w]⟩
  | .ok content =>
  let alreadyLogged := journalContainsMessage content c.Message.ID
  let appended : List ExtCall :=
    if alreadyLogged then [] else [ExtCall.appendFile journalPath entry]
  let appendOut : Except Str Unit := if alreadyLogged then .ok () else env.appendRes
  match appendOut with
  | .error e =>
    let (rq, w) := scheduleFailure cfg now c.Message.ID previousAttempts e
    ⟨false, rq, true, calls4 ++ appended, [w]⟩
  | .ok _ =>
  let calls5 := calls4 ++ appended ++ [ExtCall.addReaction c.Message.ChannelID c.Message.ID]
  match env.reactionRes with
  | .error e =>
    let attempts := previousAttempts + 1
    let next := NextRetryAt now attempts cfg.retryBaseSeconds cfg.retryMaxSeconds
    ⟨false, true, true, calls5,
      [.markReactionPending c.Message.ID e attempts next
        journalPath origPath txRes.transcriptJSON jumpURL now]⟩
  | .ok _ =>
    ⟨true, false, false, calls5,
      [.markDone c.Message.ID journalPath origPath txRes.transcriptJSON jumpURL now]⟩

/-- Per-candidate counters and traces from one iteration of the poll or
retry loop. -/
structure StepOut where
  processed : Nat
  succeeded : Nat
  failed : Nat
  requeued : Nat
  skipped : Nat
  calls : List ExtCall
  writes : List StoreWrite
deriving DecidableEq

/-- Wrap a `processCandidate` outcome into loop counters, as the poll and
retry loops both do. -/
def countProc (p : ProcOut) : StepOut :=
  ⟨1,
    if p.failed then 0 else (if p.succeeded then 1 else 0),
    if p.failed then 1 else 0,
    if p.failed ∧ p.requeued then 1 else 0,
    0, p.calls, p.writes⟩

/-- Loop body of `Runner.PollOnce` for one candidate: a stored record that
is already done is only counted skipped; otherwise the record is upserted
pending (preserving stored attempts) and processed. -/
def pollStepOnCandidate (cfg : Config) (t : GoTime) (env : ProcEnv)
    (stored : Option MsgRec) (c : Candidate) : StepOut :=
  match stored with
  | some rec =>
    if rec.status = Status.done then ⟨0, 0, 0, 0, 1, [], []⟩
    else
      let p := processCandidate cfg t env c rec.attempts
      let out := countProc p
      { out with writes := .upsertPending (upsertRecordOf c) t.unix :: out.writes }
  | none =>
    let p := processCandidate cfg t env c 0
    let out := countProc p
    { out with writes := .upsertPending (upsertRecordOf c) t.unix :: out.writes }
where
  /-- The `state.MessageRecord` literal built in the poll loop before
  `UpsertPending` (unset Go fields are zero values). -/
  upsertRecordOf (c : Candidate) : MsgRec :=
    { messageID := c.Message.ID
      channelID := c.Message.ChannelID
      authorID := c.Message.Author.ID
      attachmentID := c.Attachment.ID
      attachmentURL := c.Attachment.URL
      attachmentFilename := c.Attachment.Filename
      contentType := c.Attachment.ContentType
      audioPath := []
      transcriptPath := []
      status := .pending
      attempts := 0
      nextRetryAt := none
      lastError := []
      journalPath := []
      discordJumpURL := c.JumpURL
      createdAt := 0
      updatedAt := 0 }

/-- Cursor fold of `Runner.PollOnce`: the running maximum id over the
fetched batch, seeded with the previous cursor. -/
def pollMaxSeen (lastSeen : Str) (messages : List Message) : Str :=
  messages.foldl
    (fun maxSeen m =>
      if maxSeen = ([] : Str) ∨ snowflakeCompare m.ID maxSeen > 0 then m.ID else maxSeen)
    lastSeen

/-- Cursor write of `Runner.PollOnce`: `SetKV` only when the maximum is
non-empty and differs from the previous cursor. -/
def pollCursorWrite (lastSeen : Str) (messages : List Message) : Option Str :=
  let maxSeen := pollMaxSeen lastSeen messages
  if maxSeen ≠ ([] : Str) ∧ maxSeen ≠ lastSeen then some maxSeen else none

/-- The cursor value stored after the poll cycle (unchanged when no write
was issued). -/
def storedCursorAfterPoll (lastSeen : Str) (messages : List Message) : Str :=
  (pollCursorWrite lastSeen messages).getD lastSeen

/-- The candidate the retry loop rebuilds from a stored `failed` record. -/
def candidateFromRecord (rec : MsgRec) : Candidate :=
  { Message :=
      { ID := rec.messageID
        ChannelID := rec.channelID
        GuildID := []
        Author := { ID := rec.authorID, Username := [] }
        Content := []
        Attachments := [] }
    Attachment :=
      { ID := rec.attachmentID
        URL := rec.attachmentURL
        Filename := rec.attachmentFilename
        ContentType := rec.contentType }
    Kind := []
    JumpURL := rec.discordJumpURL }

/-- Loop body of `Runner.Retry` for one selected row: a `reaction_pending`
row only retries the acknowledgment (success marks done with the stored
paths, failure reschedules or permanently fails at the budget); a `failed`
row at the budget is skipped; any other row is re-run through
`processCandidate` on the rebuilt candidate. -/
def retryRowStep (cfg : Config) (t : GoTime) (env : ProcEnv) (rec : MsgRec) : StepOut :=
  if rec.status = Status.reactionPending then
    match env.reactionRes with
    | .error e =>
      let attempts := rec.attempts + 1
      if attempts ≥ cfg.maxRetryAttempts then
        ⟨1, 0, 1, 0, 0, [.addReaction rec.channelID rec.messageID],
          [.markFailed rec.messageID e attempts none t.unix]⟩
      else
        ⟨1, 0, 1, 1, 0, [.addReaction rec.channelID rec.messageID],
          [.markReactionPending rec.messageID e attempts
            (NextRetryAt t.unix attempts cfg.retryBaseSeconds cfg.retryMaxSeconds)
            rec.journalPath rec.audioPath rec.transcriptPath rec.discordJumpURL t.unix]⟩
    | .ok _ =>
      ⟨1, 1, 0, 0, 0, [.addReaction rec.channelID rec.messageID],
        [.markDone rec.messageID rec.journalPath rec.audioPath rec.transcriptPath
          rec.discordJumpURL t.unix]⟩
  else if rec.attempts ≥ cfg.maxRetryAttempts then ⟨1, 0, 0, 0, 1, [], []⟩
  else countProc (processCandidate cfg t env (candidateFromRecord rec) rec.attempts)

/-- `Runner.safeRemoveWithin`, up to the final `os.Remove`: `ok none` when
the trimmed target is empty (no removal attempted), `ok (some p)` when the
guard passes and `os.Remove p` would run on the cleaned target, `error`
when `Rel` fails or the relative form escapes upward. -/
def safeRemoveWithin (targetPath root : Str) : Except Str (Option Str) :=
  if goTrimSpace targetPath = ([] : Str) then .ok none
  else
    let cleanTarget := goClean targetPath
    let cleanRoot := goClean root
    match goRel cleanRoot cleanTarget with
    | .error e => .error e
    | .ok rel =>
      if strStartsWith rel "..".data then .error "path is outside root".data
      else .ok (some cleanTarget)

/-- Outcome of the `os.Remove` an environment would produce. -/
inductive RemoveOutcome
  | removed
  | notExist
  | otherErr
deriving DecidableEq

/-- Result of one audio-cleanup loop iteration. -/
structure CleanStepOut where
  record : MsgRec
  errored : Bool
  removed : Option Str
  processed : Nat
  succeeded : Nat
deriving DecidableEq

/-- Audio branch of the `Runner.Cleanup` loop body for one matched record:
an empty stored path is skipped outright; a guard rejection or a
non-`IsNotExist` removal error is reported leaving the record untouched;
otherwise the audio path is cleared — after a successful or already-absent
removal, or immediately with no removal attempted when `safeRemoveWithin`
returned early on a whitespace-only path (the `ok none` branch, which still
counts the row processed and succeeded). -/
def cleanupAudioStep (root : Str) (now : Int) (outcome : RemoveOutcome)
    (rec : MsgRec) : CleanStepOut :=
  if rec.audioPath = ([] : Str) then ⟨rec, false, none, 0, 0⟩
  else
    match safeRemoveWithin rec.audioPath root with
    | .error _ => ⟨rec, true, none, 1, 0⟩
    | .ok none => ⟨{ rec with audioPath := [], updatedAt := now }, false, none, 1, 1⟩
    | .ok (some p) =>
      match outcome with
      | .removed => ⟨{ rec with audioPath := [], updatedAt := now }, false, some p, 1, 1⟩
      | .notExist => ⟨{ rec with audioPath := [], updatedAt := now }, false, none, 1, 1⟩
      | .otherErr => ⟨rec, true, none, 1, 0⟩

/-- Transcript branch of the `Runner.Cleanup` loop body. -/
def cleanupTranscriptStep (root : Str) (now : Int) (outcome : RemoveOutcome)
    (rec : MsgRec) : CleanStepOut :=
  if rec.transcriptPath = ([] : Str) then ⟨rec, false, none, 0, 0⟩
  else
    match safeRemoveWithin rec.transcriptPath root with
    | .error _ => ⟨rec, true, none, 1, 0⟩
    | .ok none => ⟨{ rec with transcriptPath := [], updatedAt := now }, false, none, 1, 1⟩
    | .ok (some p) =>
      match outcome with
      | .removed => ⟨{ rec with transcriptPath := [], updatedAt := now }, false, some p, 1, 1⟩
      | .notExist => ⟨{ rec with transcriptPath := [], updatedAt := now }, false, none, 1, 1⟩
      | .otherErr => ⟨rec, true, none, 1, 0⟩

/-- The audio cleanup sweep over its matched rows: each record is rewritten
in place, never deleted. -/
def cleanupAudioSweep (root : Str) (now : Int)
    (rows : List (MsgRec × RemoveOutcome)) : List MsgRec :=
  rows.map fun pr => (cleanupAudioStep root now pr.2 pr.1).record

/-- Spec-side containment: the cleaned target lies inside the cleaned root
(same absoluteness and the root components are a prefix of the target
components). -/
def isWithinRoot (targetPath root : Str) : Bool :=
  let ct := goClean targetPath
  let cr := goClean root
  isAbsPath ct = isAbsPath cr && (pathParts cr).isPrefixOf (pathParts ct)

end Pipeline

namespace Main

/-- `main.sanitize`: truncate at the first credential-introducing pattern
and replace the remainder with a redaction tag. -/
def sanitize (s : Str) : Str :=
  if s = [] then s
  else
    let p1 := "Bot ".data
    match strIndexOf s p1 with
    | some i => s.take (i + p1.length) ++ "[REDACTED]".data
    | none =>
      let p2 := "Bearer ".data
      match strIndexOf s p2 with
      | some i => s.take (i + p2.length) ++ "[REDACTED]".data
      | none => s

/-- Error lines `main.printResult` displays: sanitized line by line in the
plain-text mode, encoded verbatim inside the JSON document in `--json`
mode. -/
def displayedErrors (errors : List Str) (asJSON : Bool) : List Str :=
  if asJSON then errors else errors.map sanitize

end Main

namespace Pipeline

/-- Events a journal document undergoes across runs: a guarded processing
run for the tracked id, or any other growth of the document by a suffix
(appends for other ids, or unrelated edits that only extend the file). -/
inductive DocEvent
  | procRun
  | extendBy (s : Str)
deriving DecidableEq

/-- One document step: a processing run appends the entry only when the
marker is absent (the guard of `processCandidate`); other events extend the
content.  Returns the new content and whether the entry was appended. -/
def docStep (marker entry content : Str) : DocEvent → Str × Bool
  | .procRun =>
    if strContainsSub content marker then (content, false) else (content ++ entry, true)
  | .extendBy s => (content ++ s, false)

/-- Number of actual appends of the tracked entry along a sequence of
document events. -/
def appendCount (marker entry content : Str) : List DocEvent → Nat
  | [] => 0
  | e :: es =>
    let st := docStep marker entry content e
    (if st.2 then 1 else 0) + appendCount marker entry st.1 es

/-- Backoff delay as the claim states it, for `attempts = a` and bounds
`base ≤ max`: start at `base`; repeat `a - 1` times: once the delay reaches
`max / 2` jump to `max` and stop, else double; finally clamp to `max`. -/
def specBackoffLoop (maxSeconds : Int) : Nat → Int → Int
  | 0, delay => delay
  | n + 1, delay =>
    if delay ≥ maxSeconds / 2 then maxSeconds else specBackoffLoop maxSeconds n (delay * 2)

/-- Clamped backoff delay of the claim. -/
def specBackoffDelay (a base maxSeconds : Int) : Int :=
  let d := specBackoffLoop maxSeconds (a - 1).toNat base
  if d > maxSeconds then maxSeconds else d

/-- The id comparison as the claim words it: a shorter id precedes a longer
one, ids of equal length compare lexicographically. -/
def specLeB (a b : Str) : Bool :=
  decide (a.length < b.length) || (a.length == b.length && ! strLtb b a)

/-- Messages sorted ascending under the claim comparison. -/
def specSortMessages (msgs : List Discord.Message) : List Discord.Message :=
  sortBy (fun m1 m2 => specLeB m1.ID m2.ID) msgs

/-- The candidate list as the claim describes it: sort ascending by id under
the claim comparison, then keep and classify each message in order. -/
def specSelect (msgs : List Discord.Message) (allowedAuthorIDs : List Str) : List Candidate :=
  (specSortMessages msgs).filterMap (classifyMessage allowedAuthorIDs)

/-- The failure write the claim prescribes for a pre-acknowledgment failure:
status failed, attempts `a + 1`, next_retry_at null at or past the retry
budget and `now` plus the backoff delay for `a + 1` otherwise. -/
def specFailWrite (cfg : Config) (now : Int) (messageID : Str) (a : Int) (e : Str) : StoreWrite :=
  .markFailed messageID e (a + 1)
    (if a + 1 ≥ cfg.maxRetryAttempts then none
     else some (NextRetryAt now (a + 1) cfg.retryBaseSeconds cfg.retryMaxSeconds)) now

/-- The write the claim prescribes for a failure at the acknowledgment step
only: status reaction_pending, attempts `a + 1`, next_retry_at `now` plus
backoff, and the produced journal, audio and transcript paths stored. -/
def specReactionWrite (cfg : Config) (now : Int) (messageID : Str) (a : Int) (e : Str)
    (journalPath audioPath transcriptPath jumpURL : Str) : StoreWrite :=
  .markReactionPending messageID e (a + 1)
    (NextRetryAt now (a + 1) cfg.retryBaseSeconds cfg.retryMaxSeconds)
    journalPath audioPath transcriptPath jumpURL now

/-- Concrete configuration used to evaluate the development on sample
inputs. -/
def sampleCfg : Config :=
  { maxRetryAttempts := 8
    retryBaseSeconds := 300
    retryMaxSeconds := 86400
    discordFetchLimit := 100
    audioStoreDir := "/store".data
    vaultJournalDir := "journal".data
    whisperModel := "base".data
    allowedAuthorIDs := ["A".data] }

/-- Concrete instant used to evaluate the development on sample inputs. -/
def sampleTime : GoTime :=
  { unix := 0
    dateSlash := "2026/02/26".data
    dateDash := "2026-02-26".data
    dateUnderscore := "2026_02_26".data
    hm := "12:00".data
    rfc3339 := "2026-02-26T12:00:00Z".data }

/-- Concrete message used to evaluate the development on sample inputs. -/
def sampleMessage : Discord.Message :=
  { ID := "1".data
    ChannelID := "ch".data
    GuildID := []
    Author := { ID := "A".data, Username := [] }
    Content := []
    Attachments := [⟨"att".data, "url".data, "m.ogg".data, "audio/ogg".data⟩] }

/-- Concrete candidate used to evaluate the development on sample inputs. -/
def sampleCandidate : Candidate :=
  { Message := sampleMessage
    Attachment := ⟨"att".data, "url".data, "m.ogg".data, "audio/ogg".data⟩
    Kind := CandidateKindAudio
    JumpURL := [] }

/-- Concrete transcription result for sample runs. -/
def sampleWhisper : WhisperOut :=
  { text := "hello".data, transcriptJSON := "tr.json".data, wavPath := "w.wav".data }

/-- Environment in which every external call succeeds. -/
def sampleEnvOk : ProcEnv :=
  { downloadRes := .ok ()
    normalizeRes := .ok ()
    whisperRes := .ok sampleWhisper
    existsRes := .ok true
    createRes := .ok ()
    readRes := .ok []
    appendRes := .ok ()
    reactionRes := .ok () }

/-- Environment in which the download fails. -/
def sampleEnvDownloadFail : ProcEnv :=
  { sampleEnvOk with downloadRes := .error "boom".data }

/-- Stored record already marked done, for the poll-skip sample. -/
def sampleDoneRec : State.MsgRec :=
  { messageID := "1".data
    channelID := "ch".data
    authorID := "A".data
    attachmentID := "att".data
    attachmentURL := "url".data
    attachmentFilename := "m.ogg".data
    contentType := "audio/ogg".data
    audioPath := "ap".data
    transcriptPath := "tp".data
    status := State.Status.done
    attempts := 1
    nextRetryAt := none
    lastError := []
    journalPath := "jp".data
    discordJumpURL := "ju".data
    createdAt := 0
    updatedAt := 0 }

/-- Concrete journal entry input for sample runs. -/
def sampleEntryInput : Journal.EntryInput :=
  { now := sampleTime
    transcript := "hello".data
    channelID := "ch".data
    messageID := "1".data
    authorID := "A".data
    jumpURL := []
    audioFile := []
    whisperModel := "base".data
    processedAt := sampleTime }

/-- Due failed row with the earlier update stamp. -/
def sampleDueRec1 : State.MsgRec :=
  { sampleDoneRec with
      messageID := "r1".data
      status := State.Status.failed
      nextRetryAt := some 5
      attempts := 1
      updatedAt := 1 }

/-- Due failed row with the later update stamp. -/
def sampleDueRec2 : State.MsgRec :=
  { sampleDoneRec with
      messageID := "r2".data
      status := State.Status.failed
      nextRetryAt := some 5
      attempts := 1
      updatedAt := 2 }

/-- Reaction-pending row with stored artifact paths. -/
def sampleReactionRec : State.MsgRec :=
  { sampleDoneRec with
      messageID := "r3".data
      status := State.Status.reactionPending
      nextRetryAt := some 5
      attempts := 1
      updatedAt := 3 }

/-- Done record whose stored audio path is a file inside the root whose
name begins with two dots. -/
def sampleEscRec : State.MsgRec :=
  { sampleDoneRec with
      messageID := "r4".data
      audioPath := "/store/..x".data }

end Pipeline

end VoiceInbox


namespace VoiceInbox

namespace Pipeline

lemma retryLoopGo_eq_spec (n : Nat) (m d : Int) :
    retryLoopGo m n d = specBackoffLoop m n d := by
  induction n generalizing d with
  | zero => rfl
  | succ k ih =>
    simp only [retryLoopGo, specBackoffLoop]
    split
    · rfl
    · exact ih (d * 2)

lemma retryLoopGo_one_le (n : Nat) (m d : Int) (hd : 1 ≤ d) (hm : 1 ≤ m) :
    1 ≤ retryLoopGo m n d := by
  induction n generalizing d with
  | zero => exact hd
  | succ k ih =>
    simp only [retryLoopGo]
    split
    · exact hm
    · exact ih (d * 2) (by omega)

lemma retryLoopGo_sat (j : Nat) : retryLoopGo 86400 (j + 9) 300 = 86400 := by
  norm_num [retryLoopGo]

/-- C3: for attempts `a ≥ 1` and bounds `1 ≤ base ≤ max`, `NextRetryAt` adds
exactly the delay described by the claim (start at base, `a-1` guarded
doublings saturating at max, clamped to max); with base 300 and max 86400
the delays are 300, 600, 1200, 38400 at attempts 1, 2, 3, 8, and 86400 from
attempt 10 on (in particular at attempt 12), staying at the maximum for all
larger attempt counts. -/
theorem claim_C3 (now a base maxS : Int) (ha : 1 ≤ a) (hb : 1 ≤ base)
    (hbm : base ≤ maxS) :
    NextRetryAt now a base maxS = now + specBackoffDelay a base maxS
    ∧ NextRetryAt now 1 300 86400 = now + 300
    ∧ NextRetryAt now 2 300 86400 = now + 600
    ∧ NextRetryAt now 3 300 86400 = now + 1200
    ∧ NextRetryAt now 8 300 86400 = now + 38400
    ∧ NextRetryAt now 12 300 86400 = now + 86400
    ∧ (∀ k : Int, 10 ≤ k → NextRetryAt now k 300 86400 = now + 86400) := by
  refine ⟨?_, ?_, ?_, ?_, ?_, ?_, ?_⟩
  · have h1 : ¬ a ≤ 0 := by omega
    have h2 : ¬ base ≤ 0 := by omega
    have h3 : ¬ maxS ≤ 0 := by omega
    simp only [NextRetryAt, specBackoffDelay, h1, h2, h3, if_false,
      retryLoopGo_eq_spec]
  · norm_num [NextRetryAt, retryLoopGo]
  · norm_num [NextRetryAt, retryLoopGo]
  · norm_num [NextRetryAt, retryLoopGo]
  · norm_num [NextRetryAt, retryLoopGo]
  · norm_num [NextRetryAt, retryLoopGo]
  · intro k hk
    have h1 : ¬ k ≤ 0 := by omega
    obtain ⟨j, hj⟩ : ∃ j : Nat, (k - 1).toNat = j + 9 := ⟨(k - 1).toNat - 9, by omega⟩
    simp only [NextRetryAt, h1, if_false]
    norm_num [hj, retryLoopGo_sat j]

/-- Witness for C3 at concrete arguments. -/
theorem claim_C3_witness :
    (1 : Int) ≤ 1 ∧ (1 : Int) ≤ 300 ∧ (300 : Int) ≤ 86400
    ∧ NextRetryAt 0 1 300 86400 = 0 + specBackoffDelay 1 300 86400 :=
  ⟨by norm_num, by norm_num, by norm_num,
    (claim_C3 0 1 300 86400 (by norm_num) (by norm_num) (by norm_num)).1⟩

/-- Counterexample to C10 as stated: with `maxSeconds = 10^10` (a
representable integer argument) and the default base 300, attempt 26
computes a delay of 10^10 seconds, whose int64 nanosecond conversion wraps
to a negative Duration, so the returned instant is strictly earlier than
`now`, not later. -/
theorem claim_C10_counterexample :
    retryDelaySeconds 26 300 10000000000 = 10000000000
    ∧ durationOfSeconds 10000000000 = -8446744073709551616
    ∧ NextRetryAtNs 0 26 300 10000000000 < 0 := by
  exact ⟨by decide, by decide, by decide⟩

/-- C10 (amended): `NextRetryAt` normalises degenerate inputs (attempts,
base and max at most 0) and always computes a clamped delay of at least 1
second and at most the normalised maximum; whenever that delay is at most
9223372036 seconds — so its nanosecond count fits in int64, as with every
positive `maxSeconds` up to that bound, the daemon defaults included — the
returned instant is later than `now` by exactly the delay, in particular
strictly later; for larger representable delays the int64 `Duration`
conversion wraps and the returned instant can precede `now`. -/
theorem claim_C10 (now attempts base maxS : Int) :
    (1 ≤ retryDelaySeconds attempts base maxS
      ∧ retryDelaySeconds attempts base maxS
          ≤ (if maxS ≤ 0 then (if base ≤ 0 then 1 else base) else maxS))
    ∧ (retryDelaySeconds attempts base maxS ≤ 9223372036 →
        NextRetryAtNs now attempts base maxS
            = now + retryDelaySeconds attempts base maxS * 1000000000
        ∧ now < NextRetryAtNs now attempts base maxS) := by
  have hb : (1 : Int) ≤ (if base ≤ 0 then 1 else base) := by split <;> omega
  have hm : (1 : Int) ≤ (if maxS ≤ 0 then (if base ≤ 0 then 1 else base) else maxS) := by
    split
    · exact hb
    · omega
  have key : ∀ (n : Nat) (b m : Int), 1 ≤ b → 1 ≤ m →
      1 ≤ (if retryLoopGo m n b > m then m else retryLoopGo m n b)
      ∧ (if retryLoopGo m n b > m then m else retryLoopGo m n b) ≤ m := by
    intro n b m hb2 hm2
    have h1 := retryLoopGo_one_le n m b hb2 hm2
    constructor <;> split <;> omega
  have hq := key ((if attempts ≤ 0 then 1 else attempts) - 1).toNat
    (if base ≤ 0 then 1 else base)
    (if maxS ≤ 0 then (if base ≤ 0 then 1 else base) else maxS) hb hm
  have hd1 : 1 ≤ retryDelaySeconds attempts base maxS := hq.1
  have hd2 : retryDelaySeconds attempts base maxS
      ≤ (if maxS ≤ 0 then (if base ≤ 0 then 1 else base) else maxS) := hq.2
  refine ⟨⟨hd1, hd2⟩, ?_⟩
  intro hle
  have hx : durationOfSeconds (retryDelaySeconds attempts base maxS)
      = retryDelaySeconds attempts base maxS * 1000000000 := by
    unfold durationOfSeconds wrap64
    rw [Int.emod_eq_of_lt (by omega) (by omega)]
    omega
  refine ⟨by simp only [NextRetryAtNs, hx], ?_⟩
  simp only [NextRetryAtNs, hx]
  omega

/-- Witness for C10 at the daemon's default backoff bounds. -/
theorem claim_C10_witness :
    retryDelaySeconds 12 300 86400 ≤ 9223372036
    ∧ (0 : Int) < NextRetryAtNs 0 12 300 86400 :=
  ⟨by decide, ((claim_C10 0 12 300 86400).2 (by decide)).2⟩

end Pipeline

namespace State

/-- The done-row invariant: every row with status done has a null
next_retry_at. -/
def DoneInv (s : Store) : Prop :=
  ∀ r ∈ s, r.status = Status.done → r.nextRetryAt = none

lemma doneInv_applyOp (s : Store) (op : StoreOp) (h : DoneInv s) :
    DoneInv (applyOp s op) := by
  intro r hr hdone
  cases op with
  | upsertPending rec now =>
    simp only [applyOp] at hr
    split at hr
    · obtain ⟨x, hx, rfl⟩ := List.mem_map.1 hr
      by_cases hid : x.messageID = rec.messageID
      · simp only [hid, if_true] at hdone ⊢
        exact h x hx hdone
      · simp only [hid, if_false] at hdone ⊢
        exact h x hx hdone
    · rcases List.mem_append.1 hr with hmem | hmem
      · exact h r hmem hdone
      · simp only [List.mem_singleton] at hmem
        subst hmem
        simp at hdone
  | markDone id journalPath audioPath transcriptPath jumpURL now =>
    simp only [applyOp] at hr
    obtain ⟨x, hx, rfl⟩ := List.mem_map.1 hr
    by_cases hid : x.messageID = id
    · simp [hid]
    · simp only [hid, if_false] at hdone ⊢
      exact h x hx hdone
  | markReactionPending id errText attempts next journalPath audioPath transcriptPath jumpURL now =>
    simp only [applyOp] at hr
    obtain ⟨x, hx, rfl⟩ := List.mem_map.1 hr
    by_cases hid : x.messageID = id
    · simp [hid] at hdone
    · simp only [hid, if_false] at hdone ⊢
      exact h x hx hdone
  | markFailed id errText attempts next now =>
    simp only [applyOp] at hr
    obtain ⟨x, hx, rfl⟩ := List.mem_map.1 hr
    by_cases hid : x.messageID = id
    · simp [hid] at hdone
    · simp only [hid, if_false] at hdone ⊢
      exact h x hx hdone
  | clearAudioPath id now =>
    simp only [applyOp] at hr
    obtain ⟨x, hx, rfl⟩ := List.mem_map.1 hr
    by_cases hid : x.messageID = id
    · simp only [hid, if_true] at hdone ⊢
      exact h x hx hdone
    · simp only [hid, if_false] at hdone ⊢
      exact h x hx hdone
  | clearTranscriptPath id now =>
    simp only [applyOp] at hr
    obtain ⟨x, hx, rfl⟩ := List.mem_map.1 hr
    by_cases hid : x.messageID = id
    · simp only [hid, if_true] at hdone ⊢
      exact h x hx hdone
    · simp only [hid, if_false] at hdone ⊢
      exact h x hx hdone

lemma doneInv_foldl (ops : List StoreOp) (s : Store) (h : DoneInv s) :
    DoneInv (ops.foldl applyOp s) := by
  induction ops generalizing s with
  | nil => exact h
  | cons op rest ih => exact ih (applyOp s op) (doneInv_applyOp s op h)

/-- C5: in every table state reachable from the empty table by any sequence
of the six store operations, a row with status done has a null
next_retry_at (MarkDone is the only operation that sets status done, and it
always nulls next_retry_at and clears the error). -/
theorem claim_C5 (ops : List StoreOp) (r : MsgRec) (hr : r ∈ runOps ops)
    (hdone : r.status = Status.done) : r.nextRetryAt = none := by
  have h := doneInv_foldl ops [] (by intro x hx; simp at hx)
  exact h r hr hdone

/-- Witness for C5: an upsert followed by a MarkDone yields a done row, and
the claim applied to that concrete run gives its null next_retry_at. -/
theorem claim_C5_witness :
    ({ messageID := "1".data
       channelID := "c".data
       authorID := "a".data
       attachmentID := "at".data
       attachmentURL := "u".data
       attachmentFilename := "f".data
       contentType := "audio/ogg".data
       audioPath := "ap".data
       transcriptPath := "tp".data
       status := Status.done
       attempts := 0
       nextRetryAt := none
       lastError := []
       journalPath := "jp".data
       discordJumpURL := "ju".data
       createdAt := 5
       updatedAt := 6 } : MsgRec).nextRetryAt = none :=
  claim_C5
    [ .upsertPending
        { messageID := "1".data
          channelID := "c".data
          authorID := "a".data
          attachmentID := "at".data
          attachmentURL := "u".data
          attachmentFilename := "f".data
          contentType := "audio/ogg".data
          audioPath := []
          transcriptPath := []
          status := Status.pending
          attempts := 0
          nextRetryAt := none
          lastError := []
          journalPath := []
          discordJumpURL := "ju".data
          createdAt := 0
          updatedAt := 0 } 5,
      .markDone "1".data "jp".data "ap".data "tp".data "ju".data 6 ]
    _ (by decide) (by decide)

end State

namespace Pipeline

lemma strLtb_irrefl (a : Str) : strLtb a a = false := by
  induction a with
  | nil => rfl
  | cons x xs ih => simp [strLtb, ih]

lemma strLtb_asymm (a : Str) : ∀ b : Str, strLtb a b = true → strLtb b a = false := by
  induction a with
  | nil =>
    intro b h
    cases b with
    | nil => simp [strLtb] at h
    | cons y ys => simp [strLtb]
  | cons x xs ih =>
    intro b h
    cases b with
    | nil => simp [strLtb] at h
    | cons y ys =>
      simp only [strLtb] at h ⊢
      by_cases hxy : x < y
      · simp [if_pos hxy, if_neg (lt_asymm hxy)]
      · by_cases hyx : y < x
        · simp [if_pos hyx, if_neg hxy] at h
        · simp only [if_neg hxy, if_neg hyx] at h ⊢
          exact ih ys h

lemma strLtb_nle_trans (a : Str) : ∀ b c : Str,
    strLtb b a = false → strLtb c b = false → strLtb c a = false := by
  induction a with
  | nil =>
    intro b c _ _
    cases c with
    | nil => rfl
    | cons z zs =>
      cases b with
      | nil => simp [strLtb] at *
      | cons y ys => simp [strLtb] at *
  | cons x xs ih =>
    intro b c h1 h2
    cases b with
    | nil => simp [strLtb] at h1
    | cons y ys =>
      cases c with
      | nil => simp [strLtb] at h2
      | cons z zs =>
        simp only [strLtb] at h1 h2 ⊢
        by_cases hyx : y < x
        · simp [if_pos hyx] at h1
        · by_cases hzy : z < y
          · simp [if_pos hzy] at h2
          · have hxy : x ≤ y := not_lt.mp hyx
            have hyz : y ≤ z := not_lt.mp hzy
            have hzx : ¬ z < x := not_lt.mpr (le_trans hxy hyz)
            rw [if_neg hzx]
            by_cases hxz : x < z
            · rw [if_pos hxz]
            · rw [if_neg hxz]
              have hxez : x = z := le_antisymm (le_trans hxy hyz) (not_lt.mp hxz)
              have hxey : x = y := le_antisymm hxy (by rw [hxez]; exact hyz)
              simp only [if_neg hyx, if_neg (by rw [← hxey]; exact lt_irrefl x : ¬ x < y)] at h1
              simp only [if_neg hzy, if_neg (by rw [hxey] at hxez; rw [← hxez]; exact lt_irrefl y : ¬ y < z)] at h2
              exact ih ys zs h1 h2

lemma snow_le_iff (a b : Str) :
    snowflakeCompare a b ≤ 0
      ↔ (a.length < b.length ∨ (a.length = b.length ∧ strLtb b a = false)) := by
  unfold snowflakeCompare
  split_ifs with h1 h2 h3 h4
  · exact ⟨fun _ => Or.inl h2, fun _ => by norm_num⟩
  · constructor
    · intro h; omega
    · intro h
      rcases h with h | h
      · exact absurd h h2
      · exact absurd h.1 h1
  · have hlen : a.length = b.length := by omega
    have hba : strLtb b a = false := strLtb_asymm a b h3
    exact ⟨fun _ => Or.inr ⟨hlen, hba⟩, fun _ => by norm_num⟩
  · constructor
    · intro h; omega
    · intro h
      rcases h with h | h
      · omega
      · rw [h.2] at h4; simp at h4
  · have hlen : a.length = b.length := by omega
    have hba : strLtb b a = false := by
      cases h : strLtb b a with
      | false => rfl
      | true => exact absurd h h4
    exact ⟨fun _ => Or.inr ⟨hlen, hba⟩, fun _ => by norm_num⟩

lemma snow_gt_iff (a b : Str) :
    snowflakeCompare a b > 0
      ↔ (b.length < a.length ∨ (a.length = b.length ∧ strLtb b a = true)) := by
  unfold snowflakeCompare
  split_ifs with h1 h2 h3 h4
  · constructor
    · intro h; omega
    · intro h
      rcases h with h | h
      · omega
      · exact absurd h.1 h1
  · have hlen : b.length < a.length := by omega
    exact ⟨fun _ => Or.inl hlen, fun _ => by norm_num⟩
  · constructor
    · intro h; omega
    · intro h
      rcases h with h | h
      · omega
      · rw [(strLtb_asymm a b h3 : strLtb b a = false)] at h; simp at h
  · have hlen : a.length = b.length := by omega
    exact ⟨fun _ => Or.inr ⟨hlen, h4⟩, fun _ => by norm_num⟩
  · constructor
    · intro h; omega
    · intro h
      rcases h with h | h
      · omega
      · rw [h.2] at h4; exact absurd rfl h4

lemma snow_le_refl (a : Str) : snowflakeCompare a a ≤ 0 :=
  (snow_le_iff a a).mpr (Or.inr ⟨rfl, strLtb_irrefl a⟩)

lemma snow_nil_le (a : Str) : snowflakeCompare ([] : Str) a ≤ 0 := by
  cases a with
  | nil => exact snow_le_refl []
  | cons x xs => exact (snow_le_iff [] (x :: xs)).mpr (Or.inl (by simp))

lemma snow_le_nil (a : Str) (h : snowflakeCompare a ([] : Str) ≤ 0) : a = [] := by
  rcases (snow_le_iff a []).mp h with h1 | h1
  · simp at h1
  · exact List.length_eq_zero.mp (by simpa using h1.1)

lemma snow_le_of_gt (a b : Str) (h : snowflakeCompare a b > 0) :
    snowflakeCompare b a ≤ 0 := by
  rcases (snow_gt_iff a b).mp h with h1 | h1
  · exact (snow_le_iff b a).mpr (Or.inl h1)
  · exact (snow_le_iff b a).mpr (Or.inr ⟨h1.1.symm, strLtb_asymm b a h1.2⟩)

lemma snow_le_trans (a b c : Str) (h1 : snowflakeCompare a b ≤ 0)
    (h2 : snowflakeCompare b c ≤ 0) : snowflakeCompare a c ≤ 0 := by
  rcases (snow_le_iff a b).mp h1 with hab | hab <;>
    rcases (snow_le_iff b c).mp h2 with hbc | hbc
  · exact (snow_le_iff a c).mpr (Or.inl (by omega))
  · exact (snow_le_iff a c).mpr (Or.inl (by omega))
  · exact (snow_le_iff a c).mpr (Or.inl (by omega))
  · exact (snow_le_iff a c).mpr
      (Or.inr ⟨by omega, strLtb_nle_trans a b c hab.2 hbc.2⟩)

lemma pollMaxSeen_spec (msgs : List Discord.Message) : ∀ lastSeen : Str,
    (pollMaxSeen lastSeen msgs = lastSeen
        ∨ pollMaxSeen lastSeen msgs ∈ msgs.map (fun m => m.ID))
    ∧ snowflakeCompare lastSeen (pollMaxSeen lastSeen msgs) ≤ 0
    ∧ ∀ m ∈ msgs, snowflakeCompare m.ID (pollMaxSeen lastSeen msgs) ≤ 0 := by
  induction msgs with
  | nil =>
    intro l
    refine ⟨Or.inl rfl, ?_, by simp⟩
    simp only [pollMaxSeen, List.foldl_nil]
    exact snow_le_refl l
  | cons m rest ih =>
    intro l
    have step : pollMaxSeen l (m :: rest)
        = pollMaxSeen (if l = ([] : Str) ∨ snowflakeCompare m.ID l > 0 then m.ID else l) rest := by
      simp [pollMaxSeen]
    by_cases hcond : l = ([] : Str) ∨ snowflakeCompare m.ID l > 0
    · rw [if_pos hcond] at step
      obtain ⟨hmem, hub, hall⟩ := ih m.ID
      rw [step]
      refine ⟨?_, ?_, ?_⟩
      · rcases hmem with h | h
        · exact Or.inr (by simp [h])
        · exact Or.inr (by simp only [List.map_cons, List.mem_cons]; exact Or.inr h)
      · have h1 : snowflakeCompare l m.ID ≤ 0 := by
          rcases hcond with h | h
          · rw [h]; exact snow_nil_le _
          · exact snow_le_of_gt _ _ h
        exact snow_le_trans _ _ _ h1 hub
      · intro m2 hm2
        rcases List.mem_cons.mp hm2 with h | h
        · rw [h]; exact hub
        · exact hall m2 h
    · rw [if_neg hcond] at step
      obtain ⟨hmem, hub, hall⟩ := ih l
      rw [step]
      push_neg at hcond
      have hle : snowflakeCompare m.ID l ≤ 0 := by omega
      refine ⟨?_, hub, ?_⟩
      · rcases hmem with h | h
        · exact Or.inl h
        · exact Or.inr (by simp only [List.map_cons, List.mem_cons]; exact Or.inr h)
      · intro m2 hm2
        rcases List.mem_cons.mp hm2 with h | h
        · rw [h]; exact snow_le_trans _ _ _ hle hub
        · exact hall m2 h

/-- C6: after a poll cycle the stored cursor is the maximum, under the
length-then-lexicographic id order, of the previous cursor and every
fetched id (it is one of them and an upper bound of all of them), and no
cursor write is issued when the batch is empty or when the running maximum
equals the previous cursor. -/
theorem claim_C6 (lastSeen : Str) (messages : List Discord.Message) :
    (storedCursorAfterPoll lastSeen messages = lastSeen
        ∨ storedCursorAfterPoll lastSeen messages ∈ messages.map (fun m => m.ID))
    ∧ snowflakeCompare lastSeen (storedCursorAfterPoll lastSeen messages) ≤ 0
    ∧ (∀ m ∈ messages,
        snowflakeCompare m.ID (storedCursorAfterPoll lastSeen messages) ≤ 0)
    ∧ (messages = [] → pollCursorWrite lastSeen messages = none)
    ∧ (pollMaxSeen lastSeen messages = lastSeen
        → pollCursorWrite lastSeen messages = none) := by
  obtain ⟨hmem, hub, hall⟩ := pollMaxSeen_spec messages lastSeen
  have hkey : storedCursorAfterPoll lastSeen messages = pollMaxSeen lastSeen messages := by
    simp only [storedCursorAfterPoll, pollCursorWrite]
    split_ifs with hc
    · rfl
    · push_neg at hc
      simp only [Option.getD_none]
      by_cases hnil : pollMaxSeen lastSeen messages = ([] : Str)
      · have hl : lastSeen = ([] : Str) := by
          apply snow_le_nil
          rw [hnil] at hub
          exact hub
        rw [hnil]
        exact hl
      · exact (hc hnil).symm
  refine ⟨?_, ?_, ?_, ?_, ?_⟩
  · rw [hkey]; exact hmem
  · rw [hkey]; exact hub
  · intro m hm; rw [hkey]; exact hall m hm
  · intro h
    subst h
    simp only [pollCursorWrite]
    split_ifs with h
    · exfalso
      simp only [pollMaxSeen, List.foldl_nil] at h
      exact h.2 rfl
    · rfl
  · intro h
    simp only [pollCursorWrite]
    split_ifs with hc
    · exact absurd h hc.2
    · rfl

/-- Witness for C6 at a concrete batch: the stored cursor after seeing ids
300 and 200 from cursor 100 is an upper bound of the previous cursor. -/
theorem claim_C6_witness :
    snowflakeCompare "100".data
      (storedCursorAfterPoll "100".data
        [{ ID := "300".data, ChannelID := "c".data, GuildID := [],
           Author := { ID := "a".data, Username := [] }, Content := [],
           Attachments := [] },
         { ID := "200".data, ChannelID := "c".data, GuildID := [],
           Author := { ID := "a".data, Username := [] }, Content := [],
           Attachments := [] }]) ≤ 0 :=
  (claim_C6 "100".data _).2.1

lemma insertBy_mem (le : α → α → Bool) (x : α) (l : List α) :
    ∀ z ∈ insertBy le x l, z = x ∨ z ∈ l := by
  induction l with
  | nil => intro z hz; simp [insertBy] at hz; exact Or.inl hz
  | cons y ys ih =>
    intro z hz
    simp only [insertBy] at hz
    split_ifs at hz
    · rcases List.mem_cons.mp hz with h | h
      · exact Or.inl h
      · exact Or.inr h
    · rcases List.mem_cons.mp hz with h | h
      · exact Or.inr (by simp [h])
      · rcases ih z h with h2 | h2
        · exact Or.inl h2
        · exact Or.inr (by simp [h2])

lemma insertBy_pairwise (le : α → α → Bool)
    (total : ∀ a b, le a b = true ∨ le b a = true)
    (tr : ∀ a b c, le a b = true → le b c = true → le a c = true)
    (x : α) (l : List α) (hl : l.Pairwise (fun a b => le a b = true)) :
    (insertBy le x l).Pairwise (fun a b => le a b = true) := by
  induction l with
  | nil => simp [insertBy]
  | cons y ys ih =>
    rcases List.pairwise_cons.mp hl with ⟨hy, hys⟩
    simp only [insertBy]
    split_ifs with hxy
    · refine List.pairwise_cons.mpr ⟨?_, hl⟩
      intro z hz
      rcases List.mem_cons.mp hz with h | h
      · rw [h]; exact hxy
      · exact tr x y z hxy (hy z h)
    · have hyx : le y x = true := by
        rcases total x y with h | h
        · exact absurd h hxy
        · exact h
      refine List.pairwise_cons.mpr ⟨?_, ih hys⟩
      intro z hz
      rcases insertBy_mem le x ys z hz with h | h
      · rw [h]; exact hyx
      · exact hy z h

lemma sortBy_pairwise (le : α → α → Bool)
    (total : ∀ a b, le a b = true ∨ le b a = true)
    (tr : ∀ a b c, le a b = true → le b c = true → le a c = true)
    (l : List α) : (sortBy le l).Pairwise (fun a b => le a b = true) := by
  induction l with
  | nil => simp [sortBy]
  | cons x xs ih => exact insertBy_pairwise le total tr x (sortBy le xs) ih

lemma insertBy_congr (f g : α → α → Bool) (h : ∀ a b, f a b = g a b) (x : α) :
    ∀ l : List α, insertBy f x l = insertBy g x l := by
  intro l
  induction l with
  | nil => rfl
  | cons y ys ih => simp only [insertBy, h, ih]

lemma sortBy_congr (f g : α → α → Bool) (h : ∀ a b, f a b = g a b) :
    ∀ l : List α, sortBy f l = sortBy g l := by
  intro l
  induction l with
  | nil => rfl
  | cons x xs ih => simp only [sortBy, ih, insertBy_congr f g h]

lemma pairwise_filterMap_of (f : α → Option β) (R : α → α → Prop) (S : β → β → Prop)
    (h : ∀ a b x y, R a b → f a = some x → f b = some y → S x y) :
    ∀ l : List α, l.Pairwise R → (l.filterMap f).Pairwise S := by
  intro l hl
  induction hl with
  | nil => simp
  | @cons a l2 ha hp ih =>
    cases hfa : f a with
    | none => simpa [List.filterMap_cons, hfa] using ih
    | some x =>
      simp only [List.filterMap_cons, hfa]
      refine List.pairwise_cons.mpr ⟨?_, ih⟩
      intro y hy
      obtain ⟨b, hb, hfb⟩ := List.mem_filterMap.mp hy
      exact h a b x y (ha b hb) hfa hfb

lemma specLeB_eq_decide (a b : Str) :
    (decide (snowflakeCompare a b ≤ 0)) = specLeB a b := by
  rw [Bool.eq_iff_iff]
  simp only [decide_eq_true_iff, specLeB, Bool.or_eq_true, Bool.and_eq_true,
    beq_iff_eq, Bool.not_eq_true', snow_le_iff]

lemma msgLeB_total (a b : Discord.Message) : msgLeB a b = true ∨ msgLeB b a = true := by
  simp only [msgLeB, decide_eq_true_iff]
  by_cases h : snowflakeCompare a.ID b.ID ≤ 0
  · exact Or.inl h
  · exact Or.inr (snow_le_of_gt _ _ (by omega))

lemma msgLeB_trans (a b c : Discord.Message) (h1 : msgLeB a b = true)
    (h2 : msgLeB b c = true) : msgLeB a c = true := by
  simp only [msgLeB, decide_eq_true_iff] at h1 h2 ⊢
  exact snow_le_trans _ _ _ h1 h2

lemma classifyMessage_message (allowedAuthorIDs : List Str) (msg : Discord.Message)
    (c : Candidate) (h : classifyMessage allowedAuthorIDs msg = some c) :
    c.Message = msg := by
  unfold classifyMessage at h
  by_cases h1 : allowedAuthorIDs.contains msg.Author.ID = true
  · rw [if_neg (fun hc => hc h1)] at h
    rcases hfa : firstAudioAttachment msg.Attachments with _ | a
    · rw [hfa] at h
      by_cases h2 : goTrimSpace msg.Content = ([] : Str)
      · rw [if_neg (fun hc => hc h2)] at h
        simp at h
      · rw [if_pos h2] at h
        injection h with h3
        rw [← h3]
    · rw [hfa] at h
      injection h with h3
      rw [← h3]
  · rw [if_pos h1] at h
    simp at h

/-- C7: the candidate selector equals the claim selection (ascending sort
under the shorter-before-longer-then-lexicographic id comparison, then
classification), its output is sorted under that comparison, and
classification behaves per case: disallowed author dropped; first audio
attachment selected with kind audio even when text is present; otherwise
non-blank text selected with the synthetic pseudo-attachment and kind text;
otherwise dropped. -/
theorem claim_C7 (messages : List Discord.Message) (allowedAuthorIDs : List Str) :
    FilterMessages messages allowedAuthorIDs = specSelect messages allowedAuthorIDs
    ∧ (FilterMessages messages allowedAuthorIDs).Pairwise
        (fun c1 c2 => specLeB c1.Message.ID c2.Message.ID = true)
    ∧ ∀ msg : Discord.Message,
        (¬ allowedAuthorIDs.contains msg.Author.ID
            → classifyMessage allowedAuthorIDs msg = none)
        ∧ (∀ a, allowedAuthorIDs.contains msg.Author.ID
            → firstAudioAttachment msg.Attachments = some a
            → classifyMessage allowedAuthorIDs msg
                = some ⟨msg, a, CandidateKindAudio, jumpOfMessage msg⟩)
        ∧ (allowedAuthorIDs.contains msg.Author.ID
            → firstAudioAttachment msg.Attachments = none
            → goTrimSpace msg.Content ≠ ([] : Str)
            → classifyMessage allowedAuthorIDs msg
                = some ⟨msg, pseudoAttachment msg, CandidateKindText, jumpOfMessage msg⟩)
        ∧ (allowedAuthorIDs.contains msg.Author.ID
            → firstAudioAttachment msg.Attachments = none
            → goTrimSpace msg.Content = ([] : Str)
            → classifyMessage allowedAuthorIDs msg = none) := by
  have hpt : ∀ m1 m2 : Discord.Message, msgLeB m1 m2 = specLeB m1.ID m2.ID := by
    intro m1 m2
    rw [← specLeB_eq_decide]
    rfl
  refine ⟨?_, ?_, ?_⟩
  · unfold FilterMessages specSelect specSortMessages
    rw [sortBy_congr msgLeB (fun m1 m2 => specLeB m1.ID m2.ID) hpt]
  · unfold FilterMessages
    refine pairwise_filterMap_of _ (fun a b => msgLeB a b = true) _ ?_ _
      (sortBy_pairwise msgLeB msgLeB_total msgLeB_trans messages)
    intro m1 m2 c1 c2 hr h1 h2
    rw [classifyMessage_message _ _ _ h1, classifyMessage_message _ _ _ h2]
    rw [← hpt m1 m2]
    exact hr
  · intro msg
    refine ⟨?_, ?_, ?_, ?_⟩
    · intro h
      unfold classifyMessage
      rw [if_pos h]
    · intro a hal hfa
      unfold classifyMessage
      rw [if_neg (fun hc => hc hal)]
      simp only [hfa]
    · intro hal hfa htext
      unfold classifyMessage
      rw [if_neg (fun hc => hc hal)]
      simp only [hfa]
      rw [if_pos htext]
    · intro hal hfa htext
      unfold classifyMessage
      rw [if_neg (fun hc => hc hal)]
      simp only [hfa]
      rw [if_neg (fun hc => hc htext)]

/-- Witness for C7 on the concrete batch of ids 300, 100, 200: the equation
instance from the claim, plus the evaluated selection order 100, 200, 300. -/
theorem claim_C7_witness :
    (FilterMessages
        [{ ID := "300".data, ChannelID := "ch".data, GuildID := [],
           Author := { ID := "A".data, Username := [] }, Content := [],
           Attachments := [⟨"a3".data, "u3".data, "m.ogg".data, "audio/ogg".data⟩] },
         { ID := "100".data, ChannelID := "ch".data, GuildID := [],
           Author := { ID := "A".data, Username := [] }, Content := [],
           Attachments := [⟨"a1".data, "u1".data, "m.ogg".data, "audio/ogg".data⟩] },
         { ID := "200".data, ChannelID := "ch".data, GuildID := [],
           Author := { ID := "A".data, Username := [] }, Content := [],
           Attachments := [⟨"a2".data, "u2".data, "m.ogg".data, "audio/ogg".data⟩] }]
        ["A".data]
      = specSelect
        [{ ID := "300".data, ChannelID := "ch".data, GuildID := [],
           Author := { ID := "A".data, Username := [] }, Content := [],
           Attachments := [⟨"a3".data, "u3".data, "m.ogg".data, "audio/ogg".data⟩] },
         { ID := "100".data, ChannelID := "ch".data, GuildID := [],
           Author := { ID := "A".data, Username := [] }, Content := [],
           Attachments := [⟨"a1".data, "u1".data, "m.ogg".data, "audio/ogg".data⟩] },
         { ID := "200".data, ChannelID := "ch".data, GuildID := [],
           Author := { ID := "A".data, Username := [] }, Content := [],
           Attachments := [⟨"a2".data, "u2".data, "m.ogg".data, "audio/ogg".data⟩] }]
        ["A".data])
    ∧ (FilterMessages
        [{ ID := "300".data, ChannelID := "ch".data, GuildID := [],
           Author := { ID := "A".data, Username := [] }, Content := [],
           Attachments := [⟨"a3".data, "u3".data, "m.ogg".data, "audio/ogg".data⟩] },
         { ID := "100".data, ChannelID := "ch".data, GuildID := [],
           Author := { ID := "A".data, Username := [] }, Content := [],
           Attachments := [⟨"a1".data, "u1".data, "m.ogg".data, "audio/ogg".data⟩] },
         { ID := "200".data, ChannelID := "ch".data, GuildID := [],
           Author := { ID := "A".data, Username := [] }, Content := [],
           Attachments := [⟨"a2".data, "u2".data, "m.ogg".data, "audio/ogg".data⟩] }]
        ["A".data]).map (fun c => c.Message.ID)
      = ["100".data, "200".data, "300".data] :=
  ⟨(claim_C7 _ _).1, by decide⟩

/-- C2: a failure at any step before the acknowledgment (download,
normalize, transcribe, journal existence check, create, read, append) marks
the record failed with attempts `a + 1` and next_retry_at null at the retry
budget, `now` plus backoff otherwise; a failure at the acknowledgment step
only marks it reaction_pending with attempts `a + 1`, next_retry_at `now`
plus backoff, and the produced journal, audio and transcript paths stored
on the record. -/

lemma scheduleFailure_eq (cfg : Config) (now : Int) (messageID : Str) (a : Int) (e : Str) :
    scheduleFailure cfg now messageID a e
      = (! decide (a + 1 ≥ cfg.maxRetryAttempts), specFailWrite cfg now messageID a e) := by
  unfold scheduleFailure specFailWrite
  split_ifs with h
  · simp [h]
  · simp [h]

theorem claim_C2 (cfg : Config) (t : GoTime) (env : ProcEnv) (c : Candidate) (a : Int) :
    (∀ e, env.downloadRes = .error e →
        (processCandidate cfg t env c a).writes = [specFailWrite cfg t.unix c.Message.ID a e]
        ∧ (processCandidate cfg t env c a).failed = true
        ∧ (processCandidate cfg t env c a).succeeded = false)
    ∧ (∀ e, env.downloadRes = .ok () → env.normalizeRes = .error e →
        (processCandidate cfg t env c a).writes = [specFailWrite cfg t.unix c.Message.ID a e]
        ∧ (processCandidate cfg t env c a).failed = true
        ∧ (processCandidate cfg t env c a).succeeded = false)
    ∧ (∀ e, env.downloadRes = .ok () → env.normalizeRes = .ok () →
        env.whisperRes = .error e →
        (processCandidate cfg t env c a).writes = [specFailWrite cfg t.unix c.Message.ID a e]
        ∧ (processCandidate cfg t env c a).failed = true
        ∧ (processCandidate cfg t env c a).succeeded = false)
    ∧ (∀ e w, env.downloadRes = .ok () → env.normalizeRes = .ok () →
        env.whisperRes = .ok w → env.existsRes = .error e →
        (processCandidate cfg t env c a).writes = [specFailWrite cfg t.unix c.Message.ID a e]
        ∧ (processCandidate cfg t env c a).failed = true
        ∧ (processCandidate cfg t env c a).succeeded = false)
    ∧ (∀ e w, env.downloadRes = .ok () → env.normalizeRes = .ok () →
        env.whisperRes = .ok w → env.existsRes = .ok false → env.createRes = .error e →
        (processCandidate cfg t env c a).writes = [specFailWrite cfg t.unix c.Message.ID a e]
        ∧ (processCandidate cfg t env c a).failed = true
        ∧ (processCandidate cfg t env c a).succeeded = false)
    ∧ (∀ e w ex, env.downloadRes = .ok () → env.normalizeRes = .ok () →
        env.whisperRes = .ok w → env.existsRes = .ok ex →
        (ex = false → env.createRes = .ok ()) → env.readRes = .error e →
        (processCandidate cfg t env c a).writes = [specFailWrite cfg t.unix c.Message.ID a e]
        ∧ (processCandidate cfg t env c a).failed = true
        ∧ (processCandidate cfg t env c a).succeeded = false)
    ∧ (∀ e w ex content, env.downloadRes = .ok () → env.normalizeRes = .ok () →
        env.whisperRes = .ok w → env.existsRes = .ok ex →
        (ex = false → env.createRes = .ok ()) → env.readRes = .ok content →
        journalContainsMessage content c.Message.ID = false → env.appendRes = .error e →
        (processCandidate cfg t env c a).writes = [specFailWrite cfg t.unix c.Message.ID a e]
        ∧ (processCandidate cfg t env c a).failed = true
        ∧ (processCandidate cfg t env c a).succeeded = false)
    ∧ (∀ e w ex content, env.downloadRes = .ok () → env.normalizeRes = .ok () →
        env.whisperRes = .ok w → env.existsRes = .ok ex →
        (ex = false → env.createRes = .ok ()) → env.readRes = .ok content →
        (journalContainsMessage content c.Message.ID = false → env.appendRes = .ok ()) →
        env.reactionRes = .error e →
        (processCandidate cfg t env c a).writes
          = [specReactionWrite cfg t.unix c.Message.ID a e
              (Journal.FilePath cfg.vaultJournalDir t) (origPathOf cfg t c)
              w.transcriptJSON (jumpURLOf c)]
        ∧ (processCandidate cfg t env c a).requeued = true
        ∧ (processCandidate cfg t env c a).failed = true
        ∧ (processCandidate cfg t env c a).succeeded = false) := by
  refine ⟨?_, ?_, ?_, ?_, ?_, ?_, ?_, ?_⟩
  · intro e h1
    simp only [processCandidate, h1, scheduleFailure_eq]
    exact ⟨trivial, trivial, trivial⟩
  · intro e h1 h2
    simp only [processCandidate, h1, h2, scheduleFailure_eq]
    exact ⟨trivial, trivial, trivial⟩
  · intro e h1 h2 h3
    simp only [processCandidate, h1, h2, h3, scheduleFailure_eq]
    exact ⟨trivial, trivial, trivial⟩
  · intro e w h1 h2 h3 h4
    simp only [processCandidate, h1, h2, h3, h4, scheduleFailure_eq]
    exact ⟨trivial, trivial, trivial⟩
  · intro e w h1 h2 h3 h4 h5
    simp only [processCandidate, h1, h2, h3, h4, h5, scheduleFailure_eq,
      Bool.false_eq_true, if_false]
    exact ⟨trivial, trivial, trivial⟩
  · intro e w ex h1 h2 h3 h4 h5 h6
    cases ex with
    | true =>
      simp only [processCandidate, h1, h2, h3, h4, h6, scheduleFailure_eq, if_true]
      exact ⟨trivial, trivial, trivial⟩
    | false =>
      simp only [processCandidate, h1, h2, h3, h4, h5 rfl, h6, scheduleFailure_eq,
        Bool.false_eq_true, if_false]
      exact ⟨trivial, trivial, trivial⟩
  · intro e w ex content h1 h2 h3 h4 h5 h6 h7 h8
    cases ex with
    | true =>
      simp only [processCandidate, h1, h2, h3, h4, h6, h7, h8, scheduleFailure_eq,
        Bool.false_eq_true, if_false, if_true]
      exact ⟨trivial, trivial, trivial⟩
    | false =>
      simp only [processCandidate, h1, h2, h3, h4, h5 rfl, h6, h7, h8, scheduleFailure_eq,
        Bool.false_eq_true, if_false, if_true]
      exact ⟨trivial, trivial, trivial⟩
  · intro e w ex content h1 h2 h3 h4 h5 h6 h7 h8
    cases halready : journalContainsMessage content c.Message.ID with
    | true =>
      cases ex with
      | true =>
        simp only [processCandidate, h1, h2, h3, h4, h6, halready, h8, if_true,
          specReactionWrite]
        exact ⟨trivial, trivial, trivial, trivial⟩
      | false =>
        simp only [processCandidate, h1, h2, h3, h4, h5 rfl, h6, halready, h8,
          Bool.false_eq_true, if_false, if_true, specReactionWrite]
        exact ⟨trivial, trivial, trivial, trivial⟩
    | false =>
      cases ex with
      | true =>
        simp only [processCandidate, h1, h2, h3, h4, h6, halready, h7 halready, h8,
          Bool.false_eq_true, if_false, if_true, specReactionWrite]
        exact ⟨trivial, trivial, trivial, trivial⟩
      | false =>
        simp only [processCandidate, h1, h2, h3, h4, h5 rfl, h6, halready, h7 halready,
          h8, Bool.false_eq_true, if_false, if_true, specReactionWrite]
        exact ⟨trivial, trivial, trivial, trivial⟩

lemma strStartsWith_iff (b : Str) : ∀ a : Str, strStartsWith a b = true ↔ ∃ t, a = b ++ t := by
  induction b with
  | nil =>
    intro a
    constructor
    · intro _; exact ⟨a, rfl⟩
    · intro _; cases a <;> rfl
  | cons y ys ih =>
    intro a
    cases a with
    | nil =>
      simp only [strStartsWith]
      constructor
      · intro h; simp at h
      · rintro ⟨t, ht⟩; simp at ht
    | cons x xs =>
      simp only [strStartsWith, Bool.and_eq_true, decide_eq_true_iff, ih xs]
      constructor
      · rintro ⟨rfl, t, rfl⟩; exact ⟨t, rfl⟩
      · rintro ⟨t, ht⟩
        rw [List.cons_append] at ht
        injection ht with h1 h2
        exact ⟨h1, t, h2⟩

lemma strContainsSub_iff (s sub : Str) : strContainsSub s sub = true ↔ sub <:+: s := by
  unfold strContainsSub
  simp only [List.any_eq_true, List.mem_range]
  constructor
  · rintro ⟨i, _, hsw⟩
    obtain ⟨t, ht⟩ := (strStartsWith_iff _ _).mp hsw
    refine ⟨s.take i, t, ?_⟩
    rw [List.append_assoc, ← ht, List.take_append_drop]
  · rintro ⟨u, v, huv⟩
    refine ⟨u.length, ?_, ?_⟩
    · have hlen := congrArg List.length huv
      simp at hlen
      omega
    · rw [← huv, List.append_assoc, List.drop_left]
      exact (strStartsWith_iff _ _).mpr ⟨v, rfl⟩

lemma infix_lift (x l m : Str) (h : m <:+: l) : m <:+: x ++ l := by
  obtain ⟨u, v, huv⟩ := h
  exact ⟨x ++ u, v, by rw [← huv]; simp [List.append_assoc]⟩

lemma strContains_append_of (s add sub : Str) (h : strContainsSub s sub = true) :
    strContainsSub (s ++ add) sub = true := by
  rw [strContainsSub_iff] at h ⊢
  exact h.trans ⟨[], add, by simp⟩

lemma marker_infix_entry (i : Journal.EntryInput) :
    markerFor i.messageID <:+: Journal.BuildEntry i := by
  have hmid : markerFor i.messageID
      <:+: ("\"\n  discord_message_id: \"".data ++ i.messageID
            ++ "\"\n  discord_author_id: \"".data : Str) := by
    refine ⟨"\"\n  ".data, "\n  discord_author_id: \"".data, ?_⟩
    simp only [markerFor, List.append_assoc]
    rfl
  refine hmid.trans ?_
  refine ⟨"\n## ログ - ".data ++ i.now.hm ++ "\n### 🎤 Voice Inbox\n\n".data
      ++ (if goTrimSpace i.transcript = ([] : Str) then "(transcript is empty)".data
          else goTrimSpace i.transcript)
      ++ "\n\n```yaml\nvoice_inbox:\n  discord_channel_id: \"".data ++ i.channelID,
    i.authorID ++ "\"\n  discord_jump_url: \"".data ++ i.jumpURL
      ++ "\"\n  audio_file: \"".data ++ i.audioFile
      ++ "\"\n  whisper_model: \"".data ++ i.whisperModel
      ++ "\"\n  processed_at: \"".data ++ i.processedAt.rfc3339
      ++ "\"\n```\n".data, ?_⟩
  unfold Journal.BuildEntry
  simp only [List.append_assoc]

lemma appendCount_zero (marker entry : Str) :
    ∀ (evs : List DocEvent) (doc : Str), strContainsSub doc marker = true →
      appendCount marker entry doc evs = 0 := by
  intro evs
  induction evs with
  | nil => intro doc _; rfl
  | cons e es ih =>
    intro doc hc
    cases e with
    | procRun =>
      simp only [appendCount, docStep, hc, if_true, Bool.false_eq_true, if_false,
        Nat.zero_add]
      exact ih doc hc
    | extendBy s2 =>
      simp only [appendCount, docStep, Bool.false_eq_true, if_false, Nat.zero_add]
      exact ih (doc ++ s2) (strContains_append_of doc s2 marker hc)

lemma appendCount_le_one (marker entry : Str) (hm : marker <:+: entry) :
    ∀ (evs : List DocEvent) (doc : Str), appendCount marker entry doc evs ≤ 1 := by
  intro evs
  induction evs with
  | nil => intro doc; simp [appendCount]
  | cons e es ih =>
    intro doc
    cases e with
    | procRun =>
      by_cases hc : strContainsSub doc marker = true
      · simp only [appendCount, docStep, hc, if_true]
        simpa using ih doc
      · have hc2 : strContainsSub doc marker = false := by
          cases h : strContainsSub doc marker
          · rfl
          · exact absurd h hc
        simp only [appendCount, docStep, hc2, Bool.false_eq_true, if_false]
        have hnew : strContainsSub (doc ++ entry) marker = true :=
          (strContainsSub_iff _ _).mpr (infix_lift doc entry marker hm)
        rw [appendCount_zero marker entry es (doc ++ entry) hnew]
        norm_num
    | extendBy s2 =>
      simp only [appendCount, docStep]
      simpa using ih (doc ++ s2)

lemma no_append_of_contains (cfg : Config) (t : GoTime) (env : ProcEnv) (c : Candidate)
    (a : Int) (content : Str) (hread : env.readRes = .ok content)
    (hcont : journalContainsMessage content c.Message.ID = true) :
    ∀ p entry, ExtCall.appendFile p entry ∉ (processCandidate cfg t env c a).calls := by
  intro p entry
  obtain ⟨dl, nm, wr, exr, cr, rd, ap, rx⟩ := env
  simp only at hread
  subst hread
  cases dl with
  | error e1 => simp [processCandidate, scheduleFailure_eq]
  | ok u1 =>
    cases nm with
    | error e2 => simp [processCandidate, scheduleFailure_eq]
    | ok u2 =>
      cases wr with
      | error e3 => simp [processCandidate, scheduleFailure_eq]
      | ok w =>
        cases exr with
        | error e4 => simp [processCandidate, scheduleFailure_eq]
        | ok b =>
          cases b <;> cases cr <;> cases rx <;>
            simp [processCandidate, scheduleFailure_eq, hcont]

end Pipeline

end VoiceInbox

namespace VoiceInbox

namespace Pipeline

/-- C1: a journal entry is appended at most once per message id: a poll
candidate whose stored record is already done is counted skipped only (no
upsert write, no external call, succeeded 0); Process appends only when the
read document content lacks the `discord_message_id` marker; the appended
entry itself contains that marker; hence along any sequence of processing
runs and other document extensions the entry is appended at most once. -/
theorem claim_C1 (cfg : Config) (t : GoTime) (env : ProcEnv) (stored : State.MsgRec)
    (c : Candidate) (a : Int) (content : Str) (i : Journal.EntryInput)
    (doc : Str) (evs : List DocEvent) :
    (stored.status = State.Status.done →
        pollStepOnCandidate cfg t env (some stored) c = ⟨0, 0, 0, 0, 1, [], []⟩)
    ∧ (env.readRes = .ok content →
        journalContainsMessage content c.Message.ID = true →
        ∀ p entry, ExtCall.appendFile p entry ∉ (processCandidate cfg t env c a).calls)
    ∧ markerFor i.messageID <:+: Journal.BuildEntry i
    ∧ appendCount (markerFor i.messageID) (Journal.BuildEntry i) doc evs ≤ 1 := by
  refine ⟨?_, ?_, marker_infix_entry i, ?_⟩
  · intro h
    simp [pollStepOnCandidate, h]
  · intro hread hcont
    exact no_append_of_contains cfg t env c a content hread hcont
  · exact appendCount_le_one _ _ (marker_infix_entry i) evs doc

/-- Witness for C1: the poll-skip branch evaluated on a concrete done
record. -/
theorem claim_C1_witness :
    State.Status.done = State.Status.done
    ∧ pollStepOnCandidate sampleCfg sampleTime sampleEnvOk (some sampleDoneRec)
        sampleCandidate = ⟨0, 0, 0, 0, 1, [], []⟩ :=
  ⟨rfl,
    (claim_C1 sampleCfg sampleTime sampleEnvOk sampleDoneRec sampleCandidate 0 []
        sampleEntryInput [] []).1 (by decide)⟩

/-- Witness for C2: a concrete run whose download fails is marked failed
with the claimed write. -/
theorem claim_C2_witness :
    sampleEnvDownloadFail.downloadRes = .error "boom".data
    ∧ (processCandidate sampleCfg sampleTime sampleEnvDownloadFail sampleCandidate 0).writes
        = [specFailWrite sampleCfg sampleTime.unix sampleCandidate.Message.ID 0 "boom".data]
    ∧ (processCandidate sampleCfg sampleTime sampleEnvDownloadFail sampleCandidate 0).failed
        = true :=
  ⟨rfl,
    ((claim_C2 sampleCfg sampleTime sampleEnvDownloadFail sampleCandidate 0).1
        "boom".data rfl).1,
    ((claim_C2 sampleCfg sampleTime sampleEnvDownloadFail sampleCandidate 0).1
        "boom".data rfl).2.1⟩

end Pipeline

end VoiceInbox

namespace VoiceInbox

namespace Pipeline

lemma mem_insertBy_self (le : α → α → Bool) (x : α) (l : List α) :
    x ∈ insertBy le x l := by
  induction l with
  | nil => simp [insertBy]
  | cons y ys ih =>
    simp only [insertBy]
    split_ifs
    · simp
    · exact List.mem_cons_of_mem y ih

lemma mem_insertBy_of_mem (le : α → α → Bool) (x z : α) (l : List α) (h : z ∈ l) :
    z ∈ insertBy le x l := by
  induction l with
  | nil => simp at h
  | cons y ys ih =>
    simp only [insertBy]
    split_ifs
    · exact List.mem_cons_of_mem x h
    · rcases List.mem_cons.mp h with h2 | h2
      · rw [h2]; simp
      · exact List.mem_cons_of_mem y (ih h2)

lemma mem_sortBy_iff (le : α → α → Bool) (z : α) : ∀ l : List α,
    z ∈ sortBy le l ↔ z ∈ l := by
  intro l
  induction l with
  | nil => simp [sortBy]
  | cons x xs ih =>
    simp only [sortBy]
    constructor
    · intro h
      rcases insertBy_mem le x (sortBy le xs) z h with h2 | h2
      · rw [h2]; simp
      · exact List.mem_cons_of_mem x (ih.mp h2)
    · intro h
      rcases List.mem_cons.mp h with h2 | h2
      · rw [h2]; exact mem_insertBy_self le x (sortBy le xs)
      · exact mem_insertBy_of_mem le x z (sortBy le xs) (ih.mpr h2)

/-- Counterexample to C4 as stated: with fetch limit 1 and two due failed
rows, the second due row is not selected, so the selection is not exactly
the set of due rows. -/
theorem claim_C4_counterexample :
    State.retryDue 10 sampleDueRec2 = true
    ∧ sampleDueRec2 ∈ [sampleDueRec1, sampleDueRec2]
    ∧ sampleDueRec2 ∉ State.ListRetryCandidates 10 1 [sampleDueRec1, sampleDueRec2] := by
  decide

/-- C4 (amended): the retry selection returns, capped at the fetch limit
(100 when the configured limit is non-positive), the oldest-updated rows
among exactly those due — failed rows with a non-null passed next_retry_at,
reaction_pending rows with a null or passed next_retry_at — and every
selected row is due and ordered by updated_at ascending; a selected
reaction_pending row gets only an acknowledgment attempt, on success
becoming done with the stored journal/audio/transcript paths and no
download, normalization or transcription call, on failure being
rescheduled or permanently failed at the budget; a failed row at the
attempts budget is counted skipped with no call and no write; any other
failed row is re-run through full Process on the candidate rebuilt from its
stored attachment metadata. -/
theorem claim_C4 (cfg : Config) (t : GoTime) (env : ProcEnv) (now limit : Int)
    (rows : State.Store) (rec : State.MsgRec) :
    State.ListRetryCandidates now limit rows
      = (sortBy State.updatedLeB (rows.filter (State.retryDue now))).take
          (if limit ≤ 0 then 100 else limit).toNat
    ∧ (∀ r ∈ State.ListRetryCandidates now limit rows,
        State.retryDue now r = true ∧ r ∈ rows)
    ∧ (State.ListRetryCandidates now limit rows).Pairwise
        (fun a b => a.updatedAt ≤ b.updatedAt)
    ∧ (State.ListRetryCandidates now limit rows).length
        ≤ (if limit ≤ 0 then 100 else limit).toNat
    ∧ (rec.status = State.Status.reactionPending → env.reactionRes = .ok () →
        retryRowStep cfg t env rec
          = ⟨1, 1, 0, 0, 0, [.addReaction rec.channelID rec.messageID],
              [.markDone rec.messageID rec.journalPath rec.audioPath rec.transcriptPath
                rec.discordJumpURL t.unix]⟩)
    ∧ (∀ e, rec.status = State.Status.reactionPending → env.reactionRes = .error e →
        rec.attempts + 1 ≥ cfg.maxRetryAttempts →
        retryRowStep cfg t env rec
          = ⟨1, 0, 1, 0, 0, [.addReaction rec.channelID rec.messageID],
              [.markFailed rec.messageID e (rec.attempts + 1) none t.unix]⟩)
    ∧ (∀ e, rec.status = State.Status.reactionPending → env.reactionRes = .error e →
        ¬ rec.attempts + 1 ≥ cfg.maxRetryAttempts →
        retryRowStep cfg t env rec
          = ⟨1, 0, 1, 1, 0, [.addReaction rec.channelID rec.messageID],
              [.markReactionPending rec.messageID e (rec.attempts + 1)
                (NextRetryAt t.unix (rec.attempts + 1) cfg.retryBaseSeconds
                  cfg.retryMaxSeconds)
                rec.journalPath rec.audioPath rec.transcriptPath rec.discordJumpURL
                t.unix]⟩)
    ∧ (rec.status = State.Status.failed → rec.attempts ≥ cfg.maxRetryAttempts →
        retryRowStep cfg t env rec = ⟨1, 0, 0, 0, 1, [], []⟩)
    ∧ (rec.status = State.Status.failed → ¬ rec.attempts ≥ cfg.maxRetryAttempts →
        retryRowStep cfg t env rec
          = countProc (processCandidate cfg t env (candidateFromRecord rec) rec.attempts)) := by
  have htot : ∀ a b : State.MsgRec,
      State.updatedLeB a b = true ∨ State.updatedLeB b a = true := by
    intro a b
    simp only [State.updatedLeB, decide_eq_true_iff]
    omega
  have htr : ∀ a b c : State.MsgRec, State.updatedLeB a b = true →
      State.updatedLeB b c = true → State.updatedLeB a c = true := by
    intro a b c
    simp only [State.updatedLeB, decide_eq_true_iff]
    omega
  refine ⟨rfl, ?_, ?_, ?_, ?_, ?_, ?_, ?_, ?_⟩
  · intro r hr
    have hr2 : r ∈ sortBy State.updatedLeB (rows.filter (State.retryDue now)) :=
      List.take_subset _ _ hr
    have hr3 : r ∈ rows.filter (State.retryDue now) :=
      (mem_sortBy_iff State.updatedLeB r _).mp hr2
    have hr4 := List.mem_filter.mp hr3
    exact ⟨hr4.2, hr4.1⟩
  · have hp := sortBy_pairwise State.updatedLeB htot htr (rows.filter (State.retryDue now))
    have hp2 : (State.ListRetryCandidates now limit rows).Pairwise
        (fun a b => State.updatedLeB a b = true) :=
      hp.sublist (List.take_sublist _ _)
    refine hp2.imp ?_
    intro a b h
    simpa [State.updatedLeB, decide_eq_true_iff] using h
  · exact (List.length_take_le _ _ :)
  · intro hst hok
    simp only [retryRowStep, hst, hok, if_pos]
  · intro e hst herr hmax
    simp only [retryRowStep, hst, herr, if_pos, if_pos hmax]
  · intro e hst herr hmax
    simp only [retryRowStep, hst, herr, if_pos, if_neg hmax]
  · intro hst hmax
    have hne : rec.status ≠ State.Status.reactionPending := by rw [hst]; decide
    simp only [retryRowStep, if_neg hne, if_pos hmax]
  · intro hst hmax
    have hne : rec.status ≠ State.Status.reactionPending := by rw [hst]; decide
    simp only [retryRowStep, if_neg hne, if_neg hmax]

/-- Witness for C4 on a concrete reaction_pending row whose acknowledgment
retry succeeds. -/
theorem claim_C4_witness :
    State.Status.reactionPending = State.Status.reactionPending
    ∧ retryRowStep sampleCfg sampleTime sampleEnvOk sampleReactionRec
        = ⟨1, 1, 0, 0, 0,
            [.addReaction sampleReactionRec.channelID sampleReactionRec.messageID],
            [.markDone sampleReactionRec.messageID sampleReactionRec.journalPath
              sampleReactionRec.audioPath sampleReactionRec.transcriptPath
              sampleReactionRec.discordJumpURL sampleTime.unix]⟩ :=
  ⟨rfl,
    (claim_C4 sampleCfg sampleTime sampleEnvOk 0 0 [] sampleReactionRec).2.2.2.2.1
      (by decide) rfl⟩

end Pipeline

namespace Main

/-- Counterexample to C9 as stated: in the JSON output mode the displayed
error list is the raw list, so a string carrying a token after "Bot " is
displayed unredacted even though `sanitize` would redact it. -/
theorem claim_C9_counterexample :
    displayedErrors ["Bot abc123".data] true = ["Bot abc123".data]
    ∧ sanitize "Bot abc123".data = "Bot [REDACTED]".data
    ∧ displayedErrors ["Bot abc123".data] true ≠ ["Bot abc123".data].map sanitize := by
  decide

/-- C9 (amended): only the plain-text output mode redacts — there every
displayed error line is `sanitize` of the stored error, which truncates at
the first "Bot " (else first "Bearer ") occurrence and replaces the
remainder with a redaction tag, and leaves strings without either pattern
unchanged; the JSON output mode emits the stored error strings verbatim. -/
theorem claim_C9 (errors : List Str) :
    displayedErrors errors false = errors.map sanitize
    ∧ displayedErrors errors true = errors
    ∧ (∀ s i, strIndexOf s "Bot ".data = some i →
        sanitize s = s.take (i + 4) ++ "[REDACTED]".data)
    ∧ (∀ s i, strIndexOf s "Bot ".data = none →
        strIndexOf s "Bearer ".data = some i →
        sanitize s = s.take (i + 7) ++ "[REDACTED]".data)
    ∧ (∀ s, strIndexOf s "Bot ".data = none →
        strIndexOf s "Bearer ".data = none → sanitize s = s) := by
  refine ⟨rfl, rfl, ?_, ?_, ?_⟩
  · intro s i h
    by_cases hs : s = ([] : Str)
    · rw [hs] at h
      rw [(by decide : strIndexOf ([] : Str) "Bot ".data = none)] at h
      exact Option.noConfusion h
    · simp only [sanitize, if_neg hs, h]
      norm_num
  · intro s i h1 h2
    by_cases hs : s = ([] : Str)
    · rw [hs] at h2
      rw [(by decide : strIndexOf ([] : Str) "Bearer ".data = none)] at h2
      exact Option.noConfusion h2
    · simp only [sanitize, if_neg hs, h1, h2]
      norm_num
  · intro s h1 h2
    by_cases hs : s = ([] : Str)
    · rw [hs]
      decide
    · simp only [sanitize, if_neg hs, h1, h2]

/-- Witness for C9 at a concrete error list containing a "Bot " token. -/
theorem claim_C9_witness :
    strIndexOf "x Bot abc".data "Bot ".data = some 2
    ∧ sanitize "x Bot abc".data = ("x Bot abc".data.take 6 ++ "[REDACTED]".data) :=
  ⟨by decide, (claim_C9 []).2.2.1 "x Bot abc".data 2 (by decide)⟩

end Main

namespace Pipeline

end Pipeline

end VoiceInbox

namespace VoiceInbox

lemma splitSlashAux_no_slash (p : Str) : ∀ acc, '/' ∉ p →
    splitSlashAux p acc = [acc.reverse ++ p] := by
  induction p with
  | nil => intro acc _; simp [splitSlashAux]
  | cons c rest ih =>
    intro acc hp
    have hc : ¬ c = '/' := by
      intro h
      exact hp (by rw [h]; exact List.mem_cons_self _ _)
    simp only [splitSlashAux, if_neg hc]
    rw [ih (c :: acc) (fun h => hp (List.mem_cons_of_mem c h))]
    simp

lemma splitSlashAux_slash_split (p : Str) (rest : Str) : ∀ acc, '/' ∉ p →
    splitSlashAux (p ++ '/' :: rest) acc = (acc.reverse ++ p) :: splitSlashAux rest [] := by
  induction p with
  | nil => intro acc _; simp [splitSlashAux]
  | cons c p2 ih =>
    intro acc hp
    have hc : ¬ c = '/' := by
      intro h
      exact hp (by rw [h]; exact List.mem_cons_self _ _)
    rw [List.cons_append]
    simp only [splitSlashAux, if_neg hc]
    rw [ih (c :: acc) (fun h => hp (List.mem_cons_of_mem c h))]
    simp

lemma joinSlash_head (c : Str) (rest : List Str) : ∃ t, joinSlash (c :: rest) = c ++ t := by
  cases rest with
  | nil => exact ⟨[], by simp [joinSlash]⟩
  | cons q r2 => exact ⟨"/".data ++ joinSlash (q :: r2), by simp [joinSlash, List.append_assoc]⟩

lemma splitSlash_join : ∀ (out : List Str), (∀ c ∈ out, c ≠ [] ∧ '/' ∉ c) → out ≠ [] →
    splitSlash (joinSlash out) = out := by
  intro out
  induction out with
  | nil => intro _ h; exact absurd rfl h
  | cons p rest ih =>
    intro hc _
    cases rest with
    | nil =>
      unfold splitSlash joinSlash
      rw [splitSlashAux_no_slash p [] (hc p (by simp)).2]
      simp
    | cons q rest2 =>
      have hj : joinSlash (p :: q :: rest2) = p ++ '/' :: joinSlash (q :: rest2) := by
        simp [joinSlash, List.append_assoc]
      unfold splitSlash
      rw [hj, splitSlashAux_slash_split p (joinSlash (q :: rest2)) [] (hc p (by simp)).2]
      have ih2 : splitSlash (joinSlash (q :: rest2)) = q :: rest2 :=
        ih (fun c hcm => hc c (List.mem_cons_of_mem p hcm)) (by simp)
      unfold splitSlash at ih2
      rw [ih2]
      simp

lemma not_isAbs_join (out : List Str) (h1 : out ≠ [])
    (hc : ∀ c ∈ out, c ≠ [] ∧ '/' ∉ c) : isAbsPath (joinSlash out) = false := by
  cases out with
  | nil => exact absurd rfl h1
  | cons c rest =>
    obtain ⟨t, ht⟩ := joinSlash_head c rest
    rw [ht]
    obtain ⟨hne, hns⟩ := hc c (by simp)
    cases c with
    | nil => exact absurd rfl hne
    | cons ch c2 =>
      have hch : ¬ ch = '/' := by
        intro h
        exact hns (by rw [h]; exact List.mem_cons_self _ _)
      simp [isAbsPath, strStartsWith, hch]

lemma splitSlashAux_slash_free : ∀ (s acc : Str), '/' ∉ acc →
    ∀ c ∈ splitSlashAux s acc, '/' ∉ c := by
  intro s
  induction s with
  | nil =>
    intro acc hacc c hcm
    simp only [splitSlashAux, List.mem_singleton] at hcm
    rw [hcm]
    simpa using hacc
  | cons ch rest ih =>
    intro acc hacc c hcm
    simp only [splitSlashAux] at hcm
    by_cases hch : ch = '/'
    · rw [if_pos hch] at hcm
      rcases List.mem_cons.mp hcm with h | h
      · rw [h]; simpa using hacc
      · exact ih [] (by simp) c h
    · rw [if_neg hch] at hcm
      refine ih (ch :: acc) ?_ c hcm
      intro h
      rcases List.mem_cons.mp h with h2 | h2
      · exact hch h2.symm
      · exact hacc h2

lemma splitSlash_slash_free (s : Str) : ∀ c ∈ splitSlash s, '/' ∉ c :=
  splitSlashAux_slash_free s [] (by simp)

lemma cleanPartsAux_spec (abs : Bool) : ∀ (l : List Str) (ns ds : List Str),
    (∀ p ∈ l, '/' ∉ p) →
    (∀ p ∈ ns, Ordinary p) →
    (∀ p ∈ ds, p = "..".data) →
    (abs = true → ds = []) →
    ∃ k ns2, cleanPartsAux abs l (ns ++ ds) = List.replicate k "..".data ++ ns2
      ∧ (∀ p ∈ ns2, Ordinary p) ∧ (abs = true → k = 0) := by
  intro l
  induction l with
  | nil =>
    intro ns ds _ hns hds habs
    refine ⟨ds.length, ns.reverse, ?_, ?_, ?_⟩
    · simp only [cleanPartsAux, List.reverse_append]
      rw [List.eq_replicate_of_mem hds]
      simp [List.reverse_replicate]
    · intro p hp
      exact hns p (by simpa using hp)
    · intro ha
      rw [habs ha]
      simp
  | cons p rest ih =>
    intro ns ds hl hns hds habs
    have hl2 : ∀ q ∈ rest, '/' ∉ q := fun q hq => hl q (List.mem_cons_of_mem p hq)
    have hlp : '/' ∉ p := hl p (List.mem_cons_self _ _)
    by_cases h1 : p = [] ∨ p = ".".data
    · simp only [cleanPartsAux, if_pos h1]
      exact ih ns ds hl2 hns hds habs
    · by_cases h2 : p = "..".data
      · subst h2
        cases ns with
        | nil =>
          cases ds with
          | nil =>
            simp only [List.nil_append, cleanPartsAux, if_neg h1, if_pos rfl]
            by_cases habs2 : abs = true
            · rw [if_pos habs2]
              have := ih [] [] hl2 (by simp) (by simp) (fun _ => rfl)
              simpa using this
            · rw [if_neg habs2]
              have := ih [] ["..".data] hl2 (by simp) (by simp)
                (fun ha => absurd ha habs2)
              simpa using this
          | cons d ds2 =>
            have hd : d = "..".data := hds d (by simp)
            simp only [List.nil_append, cleanPartsAux, if_neg h1, if_pos rfl, hd,
              if_pos rfl]
            have := ih [] ("..".data :: "..".data :: ds2) hl2 (by simp)
              (by
                intro q hq
                rcases List.mem_cons.mp hq with h | h
                · exact h
                · rcases List.mem_cons.mp h with h3 | h3
                  · exact h3
                  · exact hds q (by simp [h3]))
              (by
                intro ha
                exact absurd (habs ha) (by simp))
            simpa using this
        | cons n0 ns2 =>
          have hn0 : Ordinary n0 := hns n0 (by simp)
          have hn0ne : ¬ n0 = "..".data := hn0.2.2.1
          simp only [List.cons_append, cleanPartsAux, if_neg h1, if_pos rfl,
            if_neg hn0ne]
          exact ih ns2 ds hl2 (fun q hq => hns q (List.mem_cons_of_mem n0 hq)) hds habs
      · have hop : Ordinary p := by
          push_neg at h1
          exact ⟨h1.1, h1.2, h2, hlp⟩
        simp only [cleanPartsAux, if_neg h1, if_neg h2]
        have := ih (p :: ns) ds hl2
          (by
            intro q hq
            rcases List.mem_cons.mp hq with h | h
            · rw [h]; exact hop
            · exact hns q h)
          hds habs
        simpa using this

lemma cleanPartsAux_ordinary (abs : Bool) : ∀ (l out : List Str),
    (∀ p ∈ l, Ordinary p) → cleanPartsAux abs l out = out.reverse ++ l := by
  intro l
  induction l with
  | nil => intro out _; simp [cleanPartsAux]
  | cons p rest ih =>
    intro out hl
    have hp : Ordinary p := hl p (List.mem_cons_self _ _)
    have h1 : ¬ (p = [] ∨ p = ".".data) := by
      rintro (h | h)
      · exact hp.1 h
      · exact hp.2.1 h
    simp only [cleanPartsAux, if_neg h1, if_neg hp.2.2.1]
    rw [ih (p :: out) (fun q hq => hl q (List.mem_cons_of_mem p hq))]
    simp

lemma cleanPartsAux_dots : ∀ (k : Nat) (l out : List Str),
    (∀ p ∈ out, p = "..".data) →
    cleanPartsAux false (List.replicate k "..".data ++ l) out
      = cleanPartsAux false l (List.replicate k "..".data ++ out) := by
  intro k
  induction k with
  | zero => intro l out _; simp
  | succ k2 ih =>
    intro l out hout
    have h1 : ¬ (("..".data : Str) = [] ∨ ("..".data : Str) = ".".data) := by decide
    have hds : ∀ (y : List Str), (List.replicate (k2 + 1) "..".data ++ y : List Str)
        = "..".data :: (List.replicate k2 "..".data ++ y) := by
      intro y
      rw [List.replicate_succ, List.cons_append]
    have hswap : ∀ (y : List Str),
        (List.replicate k2 "..".data ++ ("..".data :: y) : List Str)
          = "..".data :: (List.replicate k2 "..".data ++ y) := by
      intro y
      rw [show ("..".data :: y : List Str) = ["..".data] ++ y from rfl,
        ← List.append_assoc, ← List.replicate_succ', List.replicate_succ,
        List.cons_append]
    cases out with
    | nil =>
      rw [hds l, hds ([] : List Str)]
      simp only [cleanPartsAux, if_neg h1, if_pos rfl, if_true, Bool.false_eq_true,
        if_false]
      rw [ih l ["..".data] (by simp)]
      rw [show (["..".data] : List Str) = "..".data :: [] from rfl, hswap]
    | cons q out2 =>
      have hq : q = "..".data := hout q (by simp)
      subst hq
      rw [hds l, hds ("..".data :: out2)]
      simp only [cleanPartsAux, if_neg h1, if_pos rfl, if_true]
      rw [ih l ("..".data :: "..".data :: out2)
        (by
          intro p hp
          rcases List.mem_cons.mp hp with h | h
          · exact h
          · rcases List.mem_cons.mp h with h2 | h2
            · exact h2
            · exact hout p (List.mem_cons_of_mem _ h2))]
      rw [hswap]

lemma splitSlash_cons_slash (x : Str) : splitSlash ('/' :: x) = [] :: splitSlash x := by
  simp [splitSlash, splitSlashAux]

lemma isAbsPath_cons_slash (x : Str) : isAbsPath ('/' :: x) = true := by
  simp [isAbsPath, strStartsWith]

lemma joinSlash_ne_nil (res : List Str) (h1 : res ≠ [])
    (hc : ∀ c ∈ res, c ≠ [] ∧ '/' ∉ c) : joinSlash res ≠ [] := by
  cases res with
  | nil => exact absurd rfl h1
  | cons c rest =>
    obtain ⟨t, ht⟩ := joinSlash_head c rest
    rw [ht]
    have hcne : c ≠ [] := (hc c (by simp)).1
    cases c with
    | nil => exact absurd rfl hcne
    | cons ch c2 => simp

lemma goClean_cases (s : Str) :
    goClean s = ".".data
    ∨ goClean s = "/".data
    ∨ (∃ res : List Str, res ≠ []
        ∧ (∀ p ∈ res, p ≠ [] ∧ '/' ∉ p)
        ∧ ((goClean s = '/' :: joinSlash res ∧ (∀ p ∈ res, Ordinary p))
            ∨ (goClean s = joinSlash res
               ∧ ∃ k ns, res = List.replicate k "..".data ++ ns
                  ∧ (∀ p ∈ ns, Ordinary p)))) := by
  by_cases hs : s = ([] : Str)
  · left
    rw [hs]
    decide
  · obtain ⟨k, ns2, hout, hns2, habs0⟩ := cleanPartsAux_spec (isAbsPath s) (splitSlash s)
      [] [] (splitSlash_slash_free s) (by simp) (by simp) (fun _ => rfl)
    simp only [List.append_nil] at hout
    have hg : goClean s
        = (if isAbsPath s then '/' :: joinSlash (List.replicate k "..".data ++ ns2)
           else if (List.replicate k "..".data ++ ns2) = ([] : List Str) then ".".data
           else joinSlash (List.replicate k "..".data ++ ns2)) := by
      simp only [goClean, if_neg hs]
      rw [hout]
    have hcomps : ∀ p ∈ List.replicate k "..".data ++ ns2, p ≠ [] ∧ '/' ∉ p := by
      intro p hp
      rcases List.mem_append.mp hp with h | h
      · have : p = "..".data := List.eq_of_mem_replicate h
        rw [this]
        exact ⟨by decide, by decide⟩
      · obtain ⟨o1, _, _, o4⟩ := hns2 p h
        exact ⟨o1, o4⟩
    by_cases habs : isAbsPath s = true
    · have hk0 : k = 0 := habs0 habs
      subst hk0
      simp only [List.replicate_zero, List.nil_append] at hg hcomps
      rw [if_pos habs] at hg
      cases hns0 : ns2 with
      | nil =>
        right; left
        rw [hg, hns0]
        rfl
      | cons c rest =>
        right; right
        refine ⟨ns2, by rw [hns0]; simp, hcomps, Or.inl ⟨hg, hns2⟩⟩
    · have habs2 : isAbsPath s = false := by
        cases h : isAbsPath s
        · rfl
        · exact absurd h habs
      rw [habs2] at hg
      simp only [Bool.false_eq_true, if_false] at hg
      by_cases hres : (List.replicate k "..".data ++ ns2) = ([] : List Str)
      · left
        rw [hg, if_pos hres]
      · right; right
        refine ⟨List.replicate k "..".data ++ ns2, hres, hcomps, Or.inr ⟨?_, k, ns2, rfl, hns2⟩⟩
        rw [hg, if_neg hres]

lemma goClean_idem (s : Str) : goClean (goClean s) = goClean s := by
  rcases goClean_cases s with h | h | ⟨res, hne, hcomps, hcase⟩
  · rw [h]; decide
  · rw [h]; decide
  · rcases hcase with ⟨hrender, hord⟩ | ⟨hrender, k, ns, hdecomp, hns⟩
    · rw [hrender]
      have hr_ne : ('/' :: joinSlash res : Str) ≠ [] := by simp
      have hsplit : splitSlash ('/' :: joinSlash res) = [] :: res := by
        rw [splitSlash_cons_slash, splitSlash_join res hcomps hne]
      have hclean : cleanPartsAux true ([] :: res) [] = res := by
        have h0 : (([] : Str) = [] ∨ ([] : Str) = ".".data) := Or.inl rfl
        simp only [cleanPartsAux, if_pos h0]
        rw [cleanPartsAux_ordinary true res [] hord]
        simp
      unfold goClean
      rw [if_neg hr_ne, isAbsPath_cons_slash, hsplit]
      simp only [if_true]
      rw [hclean]
    · rw [hrender]
      have hr_ne : joinSlash res ≠ [] := joinSlash_ne_nil res hne hcomps
      have habs : isAbsPath (joinSlash res) = false := not_isAbs_join res hne hcomps
      have hsplit : splitSlash (joinSlash res) = res := splitSlash_join res hcomps hne
      have hclean : cleanPartsAux false res [] = res := by
        rw [hdecomp]
        have := cleanPartsAux_dots k ns [] (by simp)
        simp only [List.append_nil] at this
        rw [this, cleanPartsAux_ordinary false ns (List.replicate k "..".data) hns]
        rw [List.reverse_replicate]
      unfold goClean
      rw [if_neg hr_ne, habs, hsplit]
      simp only [Bool.false_eq_true, if_false]
      rw [hclean, if_neg hne]

lemma isPrefixOf_self : ∀ l : List Str, l.isPrefixOf l = true := by
  intro l
  induction l with
  | nil => rfl
  | cons x xs ih => simp [List.isPrefixOf, ih]

lemma drop_commonLen_nil_iff : ∀ (a b : List Str),
    a.drop (commonLen a b) = [] ↔ a.isPrefixOf b = true := by
  intro a
  induction a with
  | nil => intro b; cases b <;> simp [commonLen, List.isPrefixOf]
  | cons x xs ih =>
    intro b
    cases b with
    | nil => simp [commonLen, List.isPrefixOf]
    | cons y ys =>
      simp only [commonLen]
      by_cases hxy : x = y
      · rw [if_pos hxy, List.drop_succ_cons, ih ys]
        simp [List.isPrefixOf, hxy]
      · rw [if_neg hxy]
        simp [List.isPrefixOf, hxy]

lemma strStartsWith_append_left (b t : Str) : strStartsWith (b ++ t) b = true :=
  (Pipeline.strStartsWith_iff _ _).mpr ⟨t, rfl⟩

lemma strStartsWith_relJoin_pos (n : Nat) (tRem : List Str) :
    strStartsWith (relJoin (n + 1) tRem) "..".data = true := by
  unfold relJoin
  rw [List.replicate_succ, List.cons_append]
  rw [if_neg (by simp)]
  obtain ⟨t, ht⟩ := joinSlash_head "..".data (List.replicate n "..".data ++ tRem)
  rw [ht]
  exact strStartsWith_append_left _ _

lemma goRel_ok_flat (base targ rel : Str)
    (h : goRel base targ = .ok rel) (hs : strStartsWith rel "..".data = false) :
    isAbsPath (goClean base) = isAbsPath (goClean targ)
    ∧ (pathParts (goClean base)).isPrefixOf (pathParts (goClean targ)) = true := by
  simp only [goRel] at h
  split_ifs at h with heq habs hdot
  · exact ⟨by rw [heq], by rw [heq]; exact isPrefixOf_self _⟩
  · injection h with h2
    subst h2
    have habs2 : isAbsPath (goClean base) = isAbsPath (goClean targ) := by
      by_cases hx : isAbsPath (goClean base) = isAbsPath (goClean targ)
      · exact hx
      · exact absurd hx habs
    refine ⟨habs2, ?_⟩
    cases hbr : (pathParts (goClean base)).drop
        (commonLen (pathParts (goClean base)) (pathParts (goClean targ))) with
    | nil => exact (drop_commonLen_nil_iff _ _).mp hbr
    | cons q brest =>
      exfalso
      rw [hbr, List.length_cons, strStartsWith_relJoin_pos] at hs
      exact Bool.noConfusion hs


lemma safeRemove_ok_some (target root p : Str)
    (h : Pipeline.safeRemoveWithin target root = .ok (some p)) :
    Pipeline.isWithinRoot target root = true ∧ p = goClean target := by
  unfold Pipeline.safeRemoveWithin at h
  dsimp only at h
  split_ifs at h with htrim
  · simp at h
  · rcases hrel : goRel (goClean root) (goClean target) with e | rel
    · rw [hrel] at h
      simp at h
    · rw [hrel] at h
      dsimp only at h
      split_ifs at h with hsw
      injection h with h2
      injection h2 with h3
      have hsw2 : strStartsWith rel "..".data = false := by
        cases hx : strStartsWith rel "..".data
        · rfl
        · exact absurd hx hsw
      have hflat := goRel_ok_flat (goClean root) (goClean target) rel hrel hsw2
      rw [goClean_idem, goClean_idem] at hflat
      refine ⟨?_, h3.symm⟩
      simp only [Pipeline.isWithinRoot]
      rw [hflat.1, hflat.2]
      simp

lemma safeRemove_shape (target root : Str) (htrim : goTrimSpace target ≠ ([] : Str)) :
    (∃ e, Pipeline.safeRemoveWithin target root = .error e)
    ∨ Pipeline.safeRemoveWithin target root = .ok (some (goClean target)) := by
  unfold Pipeline.safeRemoveWithin
  dsimp only
  rw [if_neg htrim]
  rcases hrel : goRel (goClean root) (goClean target) with e | rel
  · exact Or.inl ⟨e, rfl⟩
  · dsimp only
    split_ifs with hsw
    · exact Or.inl ⟨_, rfl⟩
    · exact Or.inr rfl

namespace Pipeline

lemma cleanupAudioStep_removed (root : Str) (now : Int) (outcome : RemoveOutcome)
    (rec : State.MsgRec) (p : Str)
    (hp : (cleanupAudioStep root now outcome rec).removed = some p) :
    isWithinRoot rec.audioPath root = true ∧ p = goClean rec.audioPath := by
  unfold cleanupAudioStep at hp
  split_ifs at hp with h1
  rcases hsr : safeRemoveWithin rec.audioPath root with e | op
  · rw [hsr] at hp
    simp at hp
  · rw [hsr] at hp
    cases op with
    | none => simp at hp
    | some q =>
      cases outcome with
      | removed =>
        simp only at hp
        injection hp with h2
        subst h2
        exact safeRemove_ok_some rec.audioPath root q hsr
      | notExist => simp at hp
      | otherErr => simp at hp

lemma cleanupTranscriptStep_removed (root : Str) (now : Int) (outcome : RemoveOutcome)
    (rec : State.MsgRec) (p : Str)
    (hp : (cleanupTranscriptStep root now outcome rec).removed = some p) :
    isWithinRoot rec.transcriptPath root = true ∧ p = goClean rec.transcriptPath := by
  unfold cleanupTranscriptStep at hp
  split_ifs at hp with h1
  rcases hsr : safeRemoveWithin rec.transcriptPath root with e | op
  · rw [hsr] at hp
    simp at hp
  · rw [hsr] at hp
    cases op with
    | none => simp at hp
    | some q =>
      cases outcome with
      | removed =>
        simp only at hp
        injection hp with h2
        subst h2
        exact safeRemove_ok_some rec.transcriptPath root q hsr
      | notExist => simp at hp
      | otherErr => simp at hp

lemma cleanupAudioStep_outside (root : Str) (now : Int) (outcome : RemoveOutcome)
    (rec : State.MsgRec) (hout : isWithinRoot rec.audioPath root = false)
    (htrim : goTrimSpace rec.audioPath ≠ ([] : Str)) :
    (cleanupAudioStep root now outcome rec).errored = true
    ∧ (cleanupAudioStep root now outcome rec).removed = none
    ∧ (cleanupAudioStep root now outcome rec).record = rec := by
  have hne : rec.audioPath ≠ ([] : Str) := by
    intro h
    rw [h] at htrim
    exact htrim rfl
  rcases safeRemove_shape rec.audioPath root htrim with ⟨e, he⟩ | hok
  · unfold cleanupAudioStep
    rw [if_neg hne, he]
    exact ⟨rfl, rfl, rfl⟩
  · exfalso
    have := (safeRemove_ok_some rec.audioPath root (goClean rec.audioPath) hok).1
    rw [this] at hout
    exact Bool.noConfusion hout

lemma cleanupTranscriptStep_outside (root : Str) (now : Int) (outcome : RemoveOutcome)
    (rec : State.MsgRec) (hout : isWithinRoot rec.transcriptPath root = false)
    (htrim : goTrimSpace rec.transcriptPath ≠ ([] : Str)) :
    (cleanupTranscriptStep root now outcome rec).errored = true
    ∧ (cleanupTranscriptStep root now outcome rec).removed = none
    ∧ (cleanupTranscriptStep root now outcome rec).record = rec := by
  have hne : rec.transcriptPath ≠ ([] : Str) := by
    intro h
    rw [h] at htrim
    exact htrim rfl
  rcases safeRemove_shape rec.transcriptPath root htrim with ⟨e, he⟩ | hok
  · unfold cleanupTranscriptStep
    rw [if_neg hne, he]
    exact ⟨rfl, rfl, rfl⟩
  · exfalso
    have := (safeRemove_ok_some rec.transcriptPath root (goClean rec.transcriptPath) hok).1
    rw [this] at hout
    exact Bool.noConfusion hout

lemma cleanupAudioStep_id (root : Str) (now : Int) (outcome : RemoveOutcome)
    (rec : State.MsgRec) :
    (cleanupAudioStep root now outcome rec).record.messageID = rec.messageID := by
  unfold cleanupAudioStep
  split_ifs with h1
  · rfl
  · rcases hsr : safeRemoveWithin rec.audioPath root with e | op
    · rfl
    · cases op with
      | none => rfl
      | some q => cases outcome <;> rfl

/-- Counterexample to C8 as stated: the stored path `/store/..x` cleans to
itself and lies inside the root `/store`, yet the sweep step reports an
error, removes nothing and leaves the record unchanged, because the
relative form `..x` begins with two dots. -/
theorem claim_C8_counterexample :
    isWithinRoot "/store/..x".data "/store".data = true
    ∧ (cleanupAudioStep "/store".data 0 .removed sampleEscRec).errored = true
    ∧ (cleanupAudioStep "/store".data 0 .removed sampleEscRec).removed = none
    ∧ (cleanupAudioStep "/store".data 0 .removed sampleEscRec).record = sampleEscRec := by
  decide

/-- C8 (amended): the sweep guard rejects exactly the stored paths whose
cleaned relative form from the root starts with two dots — every path
outside the root, and additionally in-root files whose first component
under the root begins with `..`.  Consequently any file actually removed
lies inside the storage root and equals the cleaned stored path, and only
then is the path field cleared; a path outside the root (with non-blank
text) always reports an error, removes nothing and leaves the record
unchanged; when the guard passes, removal or an already-absent file clears
the field while any other removal error keeps it; a whitespace-only but
non-empty stored path is not skipped — `safeRemoveWithin` returns success
before attempting any removal, so the row counts processed and succeeded
and its path field is cleared with no removal (only the empty stored path
is skipped outright); and the sweep never deletes records — it maps each
row to an updated row with the same message id. -/
theorem claim_C8 (root : Str) (now : Int) (outcome : RemoveOutcome)
    (rec : State.MsgRec) (rows : List (State.MsgRec × RemoveOutcome)) :
    (∀ p, (cleanupAudioStep root now outcome rec).removed = some p →
        isWithinRoot rec.audioPath root = true ∧ p = goClean rec.audioPath)
    ∧ (∀ p, (cleanupTranscriptStep root now outcome rec).removed = some p →
        isWithinRoot rec.transcriptPath root = true ∧ p = goClean rec.transcriptPath)
    ∧ (isWithinRoot rec.audioPath root = false →
        goTrimSpace rec.audioPath ≠ ([] : Str) →
        (cleanupAudioStep root now outcome rec).errored = true
        ∧ (cleanupAudioStep root now outcome rec).removed = none
        ∧ (cleanupAudioStep root now outcome rec).record = rec)
    ∧ (isWithinRoot rec.transcriptPath root = false →
        goTrimSpace rec.transcriptPath ≠ ([] : Str) →
        (cleanupTranscriptStep root now outcome rec).errored = true
        ∧ (cleanupTranscriptStep root now outcome rec).removed = none
        ∧ (cleanupTranscriptStep root now outcome rec).record = rec)
    ∧ (∀ p, safeRemoveWithin rec.audioPath root = .ok (some p) →
        outcome ≠ RemoveOutcome.otherErr → rec.audioPath ≠ ([] : Str) →
        (cleanupAudioStep root now outcome rec).record
          = { rec with audioPath := [], updatedAt := now }
        ∧ (outcome = RemoveOutcome.removed →
            (cleanupAudioStep root now outcome rec).removed = some p))
    ∧ (goTrimSpace rec.audioPath = ([] : Str) → rec.audioPath ≠ ([] : Str) →
        (cleanupAudioStep root now outcome rec).errored = false
        ∧ (cleanupAudioStep root now outcome rec).removed = none
        ∧ (cleanupAudioStep root now outcome rec).processed = 1
        ∧ (cleanupAudioStep root now outcome rec).succeeded = 1
        ∧ (cleanupAudioStep root now outcome rec).record
            = { rec with audioPath := [], updatedAt := now })
    ∧ (goTrimSpace rec.transcriptPath = ([] : Str) → rec.transcriptPath ≠ ([] : Str) →
        (cleanupTranscriptStep root now outcome rec).errored = false
        ∧ (cleanupTranscriptStep root now outcome rec).removed = none
        ∧ (cleanupTranscriptStep root now outcome rec).processed = 1
        ∧ (cleanupTranscriptStep root now outcome rec).succeeded = 1
        ∧ (cleanupTranscriptStep root now outcome rec).record
            = { rec with transcriptPath := [], updatedAt := now })
    ∧ (cleanupAudioSweep root now rows).length = rows.length
    ∧ (cleanupAudioSweep root now rows).map (fun r => r.messageID)
        = rows.map (fun pr => pr.1.messageID) := by
  refine ⟨?_, ?_, ?_, ?_, ?_, ?_, ?_, ?_, ?_⟩
  · intro p hp
    exact cleanupAudioStep_removed root now outcome rec p hp
  · intro p hp
    exact cleanupTranscriptStep_removed root now outcome rec p hp
  · intro hout htrim
    exact cleanupAudioStep_outside root now outcome rec hout htrim
  · intro hout htrim
    exact cleanupTranscriptStep_outside root now outcome rec hout htrim
  · intro p hsr houtc hne
    unfold cleanupAudioStep
    rw [if_neg hne, hsr]
    cases outcome with
    | removed =>
      constructor
      · rfl
      · intro _
        rfl
    | notExist =>
      constructor
      · rfl
      · intro h
        exact absurd h (by decide)
    | otherErr => exact absurd rfl houtc
  · intro htrim hne
    have hsr : safeRemoveWithin rec.audioPath root = .ok none := by
      unfold safeRemoveWithin
      rw [if_pos htrim]
    unfold cleanupAudioStep
    rw [if_neg hne, hsr]
    exact ⟨rfl, rfl, rfl, rfl, rfl⟩
  · intro htrim hne
    have hsr : safeRemoveWithin rec.transcriptPath root = .ok none := by
      unfold safeRemoveWithin
      rw [if_pos htrim]
    unfold cleanupTranscriptStep
    rw [if_neg hne, hsr]
    exact ⟨rfl, rfl, rfl, rfl, rfl⟩
  · simp [cleanupAudioSweep]
  · unfold cleanupAudioSweep
    rw [List.map_map]
    apply List.map_congr_left
    intro pr _
    exact cleanupAudioStep_id root now pr.2 pr.1

/-- Witness for C8 on a concrete in-root path that is removed and
cleared. -/
theorem claim_C8_witness :
    safeRemoveWithin "/store/a.orig".data "/store".data
      = .ok (some "/store/a.orig".data)
    ∧ (cleanupAudioStep "/store".data 7 RemoveOutcome.removed
        { sampleDoneRec with audioPath := "/store/a.orig".data }).record
        = { ({ sampleDoneRec with audioPath := "/store/a.orig".data } : State.MsgRec) with
            audioPath := ([] : Str), updatedAt := 7 } := by
  refine ⟨by rfl, ?_⟩
  exact ((claim_C8 "/store".data 7 RemoveOutcome.removed
      { sampleDoneRec with audioPath := "/store/a.orig".data } []).2.2.2.2.1
    "/store/a.orig".data (by rfl) (by decide) (by decide)).1

end Pipeline

end VoiceInbox
